import Mathlib

/-!
# Traffic-light search heuristic: `src/objs/heuristic.cpp`

A shallow embedding of the functions of `heuristic.cpp` and the properties
proved about them.

Conventions of the embedding.

* `Vertex` is a natural number, `TimeUnit` and `Weight` are integers.
  `TimeUnit` is the 32-bit signed `int` of the C++ code.  The differences and
  sums of `distance` and the sum of the two penalties of a candidate pair are
  computed as the machine computes them: the exact result is reduced into
  `[-2^31, 2^31 - 1]` by `wrapTimeUnit`.  The sums of the local search are
  exact: its statements are for penalties whose sums do not overflow.
* The classes `Graph`, `Solution` and `LocalSearchMetrics` are declared in
  headers that are not part of the sources at hand.  A `Solution` is the dense
  mapping vertex to timing with `getTiming` and `setTiming`; a `Graph` is the
  record of the read-only queries that `heuristic.cpp` calls.
* Every random draw is an input: the outcome of each
  `uniform_int_distribution` call and of `shuffle` is read from a record of
  outcomes, and the properties are stated for all outcomes that respect the
  declared range of the distribution.
* Behaviour that C++ leaves undefined (reading a variable that was never
  written, walking past the end of an array) makes the embedded function
  return `none`.
-/

namespace traffic

/-! ## Data model -/

/-- Vertex identifiers (`Vertex` in the C++ code, an unsigned index). -/
abbrev Vertex := Nat

/-- Edge weights. -/
abbrev Weight := Int

/-- Timings and penalties (`TimeUnit` in the C++ code, a signed integer). -/
abbrev TimeUnit := Int

/-- A solution: the dense mapping from vertex to timing. -/
abbrev Solution := Vertex → TimeUnit

/-- The method `Solution::getTiming`. -/
def getTiming (s : Solution) (v : Vertex) : TimeUnit := s v

/-- The method `Solution::setTiming`: in-place update of one vertex. -/
def setTiming (s : Solution) (v : Vertex) (t : TimeUnit) : Solution :=
  Function.update s v t

/-- The read-only queries of `Graph` used by `heuristic.cpp`: the number of
vertices, the cycle length, the neighbourhood of a vertex in the iteration
order of its map, and the penalty of a vertex under a solution. -/
structure Graph where
  getNumberOfVertices : Nat
  getCycle : TimeUnit
  neighborsOf : Vertex → List (Vertex × Weight)
  vertexPenalty : Vertex → Solution → TimeUnit

/-! ## Fixed-width arithmetic -/

/-- The value that a 32-bit two's complement computation leaves for the
exact result `x`: the representative of `x` modulo `2^32` in
`[-2^31, 2^31 - 1]`. -/
def wrapTimeUnit (x : Int) : Int :=
  (x + 2147483648) % 4294967296 - 2147483648

/-- The integer `x` is a value of the type `TimeUnit`: it lies between
`numeric_limits<TimeUnit>::min()` and `numeric_limits<TimeUnit>::max()`. -/
def IsTimeUnit (x : Int) : Prop :=
  -2147483648 ≤ x ∧ x ≤ 2147483647

/-! ## `traffic::distance` -/

/-- The function `traffic::distance` (heuristic.cpp, lines 94-107): a loop over
the vertices `0, ..., N-1` that adds to `totalDistance` the smaller of the
clockwise and the counter-clockwise distance.  Every subtraction, the
absolute value and every addition is a `TimeUnit` operation, whose result is
the exact result reduced by `wrapTimeUnit`. -/
def distance (graph : Graph) (a b : Solution) : TimeUnit :=
  (List.range graph.getNumberOfVertices).foldl
    (fun totalDistance v =>
      let clockwiseVertexDistance :=
        wrapTimeUnit |wrapTimeUnit (getTiming a v - getTiming b v)|
      let counterClockwiseVertexDistance :=
        wrapTimeUnit (graph.getCycle - clockwiseVertexDistance)
      if clockwiseVertexDistance < counterClockwiseVertexDistance then
        wrapTimeUnit (totalDistance + clockwiseVertexDistance)
      else
        wrapTimeUnit (totalDistance + counterClockwiseVertexDistance))
    0

/-! ## `traffic::constructRandomSolution` -/

/-- The function `traffic::constructRandomSolution` (heuristic.cpp, lines
15-28).  `timingPicker n` is the outcome of the `n`-th call of
`timingPicker(randomEngine)`, whose declared range is `[0, getCycle() - 1]`;
the loop makes one call per vertex, in the order of the vertices.  `fresh` is
the content of the newly constructed `Solution`. -/
def constructRandomSolution (graph : Graph) (timingPicker : Nat → TimeUnit)
    (fresh : Solution) : Solution :=
  (List.range graph.getNumberOfVertices).foldl
    (fun solution v => setTiming solution v (timingPicker v))
    fresh

/-! ## `traffic::constructHeuristicSolution` -/

/-- The outcomes of the random calls of `constructHeuristicSolution`:
`shuffle l` is the order that `shuffle` gives to the vector `l`;
`edgePicker n hi` is the outcome of `edgePicker(randomEngine)` in the
iteration number `n` of the main loop, where the declared range is `[0, hi]`;
`timingPicker n i` is the outcome of the call of `timingPicker(randomEngine)`
that fills `candidateTimings[i]` in the iteration number `n`, with declared
range `[0, getCycle() - 1]`. -/
structure HeuristicDraws where
  shuffle : List Vertex → List Vertex
  edgePicker : Nat → Nat → Nat
  timingPicker : Nat → Nat → TimeUnit

/-- The variables of `constructHeuristicSolution` that live across the
iterations of its main loop.  `bestVertex1Timing` and `bestVertex2Timing` are
declared without an initial value: `none` stands for never written.
`iterations` counts the executions of the loop body and `visited` records the
vertices popped as `vertex1`, in order; the two are bookkeeping of the
embedding. -/
structure HeuristicState where
  solution : Solution
  bestVertex1Timing : Option TimeUnit
  bestVertex2Timing : Option TimeUnit
  iterations : Nat
  visited : List Vertex

/-- The variables written by the loop over the candidate pairs (lines 69-82). -/
structure CandidateState where
  solution : Solution
  bestPenalty : TimeUnit
  bestVertex1Timing : Option TimeUnit
  bestVertex2Timing : Option TimeUnit

/-- The body of the loop over the candidate pairs (lines 70-81) for the
index `i`.  The sum of the two penalties at line 76 is a `TimeUnit`
addition, whose result is the exact sum reduced by `wrapTimeUnit`. -/
def candidateStep (graph : Graph) (vertex1 vertex2 : Vertex)
    (candidateTimings : List TimeUnit) (c : CandidateState) (i : Nat) :
    CandidateState :=
  let candidateTimingVertex1 := candidateTimings.getD (i * 2) 0
  let candidateTimingVertex2 := candidateTimings.getD (i * 2 + 1) 0
  let solution := setTiming (setTiming c.solution vertex1 candidateTimingVertex1)
    vertex2 candidateTimingVertex2
  let penalty :=
    wrapTimeUnit (graph.vertexPenalty vertex1 solution + graph.vertexPenalty vertex2 solution)
  if penalty < c.bestPenalty then
    { solution := solution
      bestPenalty := penalty
      bestVertex1Timing := some candidateTimingVertex1
      bestVertex2Timing := some candidateTimingVertex2 }
  else
    { c with solution := solution }

/-- The body of the main loop (lines 55-85) for the popped vertex `vertex1`.
The result is `none` when the iterator is advanced past the end of the
neighbourhood, or when a best timing is committed that was never written.
For an empty neighbourhood `size() - 1` wraps around in C++ and any draw
leads past the end; here the upper end of the range reads 0 and the lookup
fails all the same. -/
def heuristicIteration (graph : Graph) (numberOfTuplesToTestPerIteration : Nat)
    (maxPenaltyPossible : TimeUnit) (draws : HeuristicDraws)
    (vertex1 : Vertex) (st : HeuristicState) : Option HeuristicState :=
  let neighborhood := graph.neighborsOf vertex1
  let edge := draws.edgePicker st.iterations (neighborhood.length - 1)
  match neighborhood.get? edge with
  | none => none
  | some (vertex2, _) =>
    let candidateTimings :=
      (List.range (2 * numberOfTuplesToTestPerIteration)).map
        (fun i => draws.timingPicker st.iterations i)
    let c := (List.range numberOfTuplesToTestPerIteration).foldl
      (candidateStep graph vertex1 vertex2 candidateTimings)
      { solution := st.solution
        bestPenalty := maxPenaltyPossible
        bestVertex1Timing := st.bestVertex1Timing
        bestVertex2Timing := st.bestVertex2Timing }
    match c.bestVertex1Timing, c.bestVertex2Timing with
    | some bestVertex1Timing, some bestVertex2Timing =>
      some
        { solution := setTiming (setTiming c.solution vertex1 bestVertex1Timing)
            vertex2 bestVertex2Timing
          bestVertex1Timing := some bestVertex1Timing
          bestVertex2Timing := some bestVertex2Timing
          iterations := st.iterations + 1
          visited := st.visited ++ [vertex1] }
    | _, _ => none

/-- The main loop (lines 53-87).  The vector `unvisitedVertices` is passed
back to front: the head of `stack` is `unvisitedVertices.back()`, and the
loop ends when the vector is empty. -/
def heuristicMainLoop (graph : Graph) (numberOfTuplesToTestPerIteration : Nat)
    (maxPenaltyPossible : TimeUnit) (draws : HeuristicDraws) :
    List Vertex → HeuristicState → Option HeuristicState
  | [], st => some st
  | vertex1 :: rest, st =>
    match heuristicIteration graph numberOfTuplesToTestPerIteration
        maxPenaltyPossible draws vertex1 st with
    | none => none
    | some st1 =>
      heuristicMainLoop graph numberOfTuplesToTestPerIteration
        maxPenaltyPossible draws rest st1

/-- The vector `unvisitedVertices` before the shuffle (lines 31 and 46-49):
it is constructed with `getNumberOfVertices()` elements, which are
value-initialised to 0, and then every vertex is appended to it. -/
def unvisitedVerticesBuilt (graph : Graph) : List Vertex :=
  (List.range graph.getNumberOfVertices).foldl
    (fun unvisitedVertices i => unvisitedVertices ++ [i])
    (List.replicate graph.getNumberOfVertices 0)

/-- The solution before the main loop (lines 44 and 46-49): every vertex is
set to 0 in the newly constructed `Solution`, whose content is `fresh`. -/
def baselineSolution (graph : Graph) (fresh : Solution) : Solution :=
  (List.range graph.getNumberOfVertices).foldl
    (fun solution i => setTiming solution i 0)
    fresh

/-- The run of `constructHeuristicSolution` up to the end of the main loop,
with the final values of its variables.  `maxPenaltyPossible` is
`numeric_limits<TimeUnit>::max()`. -/
def constructHeuristicRun (graph : Graph) (numberOfTuplesToTestPerIteration : Nat)
    (maxPenaltyPossible : TimeUnit) (draws : HeuristicDraws) (fresh : Solution) :
    Option HeuristicState :=
  heuristicMainLoop graph numberOfTuplesToTestPerIteration maxPenaltyPossible draws
    (draws.shuffle (unvisitedVerticesBuilt graph)).reverse
    { solution := baselineSolution graph fresh
      bestVertex1Timing := none
      bestVertex2Timing := none
      iterations := 0
      visited := [] }

/-- The function `traffic::constructHeuristicSolution` (heuristic.cpp, lines
30-92): the solution at the end of the main loop. -/
def constructHeuristicSolution (graph : Graph) (numberOfTuplesToTestPerIteration : Nat)
    (maxPenaltyPossible : TimeUnit) (draws : HeuristicDraws) (fresh : Solution) :
    Option Solution :=
  (constructHeuristicRun graph numberOfTuplesToTestPerIteration maxPenaltyPossible
    draws fresh).map (fun st => st.solution)

/-! ## `traffic::localSearchHeuristic` and the stop criteria -/

/-- The counters read by a stop criterion. -/
structure LocalSearchMetrics where
  numberOfIterations : Nat
  numberOfIterationsWithoutImprovement : Nat
deriving DecidableEq

/-- The struct `Perturbation` (lines 109-112). -/
structure Perturbation where
  timing : TimeUnit
  penalty : TimeUnit
deriving DecidableEq

/-- The outcomes of the library calls of `localSearchHeuristic` that the
code does not determine.  `vertexPicker n` is the outcome of
`vertexPicker(randomEngine)` in the iteration number `n` (declared range
`[0, getNumberOfVertices() - 1]`); `timingPicker n i` is the outcome of the
call of `timingPicker(randomEngine)` that fills `perturbations[i].timing` in
the iteration number `n` (declared range `[0, getCycle() - 1]`);
`roulettePicker n hi` is the outcome of `roulettePicker(randomEngine)` in the
iteration number `n`, where the declared range is `[0, hi]`; and `sort l` is
the array that `std::sort` leaves for the array `l` (the order of equal
penalties is up to the library). -/
structure LocalSearchOutcomes where
  vertexPicker : Nat → Vertex
  timingPicker : Nat → Nat → TimeUnit
  roulettePicker : Nat → TimeUnit → TimeUnit
  sort : List Perturbation → List Perturbation

/-- The variables of `localSearchHeuristic` that live across the iterations
of its main loop. -/
structure LocalSearchState where
  solution : Solution
  bestSolution : Solution
  metrics : LocalSearchMetrics

/-- The variables written by the loop over the perturbations (lines
144-160).  `perturbations` holds the slots of the array written so far in the
current iteration, slot 0 first. -/
structure PerturbationState where
  solution : Solution
  bestSolution : Solution
  perturbations : List Perturbation
  rouletteMax : TimeUnit
  iterationHadNoImprovement : Bool
  bestTiming : TimeUnit
  bestPenalty : TimeUnit

/-- The body of the loop over the perturbations (lines 145-159) for the
index `i`; `timingPicker i` is the timing drawn for the slot `i`. -/
def perturbationStep (graph : Graph) (vertex : Vertex) (currentPenalty : TimeUnit)
    (timingPicker : Nat → TimeUnit) (ps : PerturbationState) (i : Nat) :
    PerturbationState :=
  let timing := timingPicker i
  let solution := setTiming ps.solution vertex timing
  let penalty := graph.vertexPenalty vertex solution
  let rouletteMax := ps.rouletteMax + penalty
  let iterationHadNoImprovement :=
    if penalty < currentPenalty then false else ps.iterationHadNoImprovement
  let bestSolution := setTiming ps.bestSolution vertex timing
  let candidatePenalty := graph.vertexPenalty vertex bestSolution
  if candidatePenalty < ps.bestPenalty then
    { solution := solution
      bestSolution := bestSolution
      perturbations := ps.perturbations ++ [{ timing := timing, penalty := penalty }]
      rouletteMax := rouletteMax
      iterationHadNoImprovement := iterationHadNoImprovement
      bestTiming := timing
      bestPenalty := candidatePenalty }
  else
    { solution := solution
      bestSolution := bestSolution
      perturbations := ps.perturbations ++ [{ timing := timing, penalty := penalty }]
      rouletteMax := rouletteMax
      iterationHadNoImprovement := iterationHadNoImprovement
      bestTiming := ps.bestTiming
      bestPenalty := ps.bestPenalty }

/-- The loop over the perturbations (lines 138-160) with the assignments
before it: slot 0 holds the timing of `vertex` in `solution` and the penalty
of `vertex` in `bestSolution`, and the slots `1, ..., numberOfPerturbations`
are filled in order. -/
def perturbationLoop (graph : Graph) (numberOfPerturbations : Nat) (vertex : Vertex)
    (timingPicker : Nat → TimeUnit) (solution bestSolution : Solution) :
    PerturbationState :=
  let currentPenalty := graph.vertexPenalty vertex solution
  let bestPenalty := graph.vertexPenalty vertex bestSolution
  (List.range' 1 numberOfPerturbations).foldl
    (perturbationStep graph vertex currentPenalty timingPicker)
    { solution := solution
      bestSolution := bestSolution
      perturbations := [{ timing := getTiming solution vertex, penalty := bestPenalty }]
      rouletteMax := bestPenalty
      iterationHadNoImprovement := true
      bestTiming := getTiming bestSolution vertex
      bestPenalty := bestPenalty }

/-- The roulette walk (lines 171-180) over the slots of the sorted array that
are still ahead, with `roulette` the sum accumulated so far.  The result is
the timing of the slot at which the walk stops; it is `none` when the walk
reads past the last slot of the array. -/
def rouletteWalk (rouletteTarget : TimeUnit) :
    List Perturbation → TimeUnit → Option TimeUnit
  | [], _ => none
  | p :: rest, roulette =>
    if rouletteTarget ≤ roulette + p.penalty then some p.timing
    else rouletteWalk rouletteTarget rest (roulette + p.penalty)

/-- The body of the main loop of `localSearchHeuristic` (lines 134-187). -/
def localSearchIteration (graph : Graph) (numberOfPerturbations : Nat)
    (outcomes : LocalSearchOutcomes) (st : LocalSearchState) :
    Option LocalSearchState :=
  let n := st.metrics.numberOfIterations
  let vertex := outcomes.vertexPicker n
  let ps := perturbationLoop graph numberOfPerturbations vertex
    (outcomes.timingPicker n) st.solution st.bestSolution
  let bestSolution := setTiming ps.bestSolution vertex ps.bestTiming
  let perturbations := outcomes.sort ps.perturbations
  let rouletteTarget := outcomes.roulettePicker n ps.rouletteMax
  match rouletteWalk rouletteTarget perturbations 0 with
  | none => none
  | some timing =>
    some
      { solution := setTiming ps.solution vertex timing
        bestSolution := bestSolution
        metrics :=
          { numberOfIterations := st.metrics.numberOfIterations + 1
            numberOfIterationsWithoutImprovement :=
              if ps.iterationHadNoImprovement then
                st.metrics.numberOfIterationsWithoutImprovement + 1
              else 0 } }

/-- The main loop of `localSearchHeuristic` (lines 133-188).  `fuel` bounds
the number of evaluations of the stop criterion; the result is `none` when
the fuel runs out or an iteration has no defined result. -/
def localSearchLoop (graph : Graph) (numberOfPerturbations : Nat)
    (stopCriteriaNotMet : LocalSearchMetrics → Bool) (outcomes : LocalSearchOutcomes) :
    Nat → LocalSearchState → Option LocalSearchState
  | 0, _ => none
  | fuel + 1, st =>
    if stopCriteriaNotMet st.metrics then
      match localSearchIteration graph numberOfPerturbations outcomes st with
      | none => none
      | some st1 =>
        localSearchLoop graph numberOfPerturbations stopCriteriaNotMet outcomes fuel st1
    else some st

/-- The state of `localSearchHeuristic` before the main loop (lines 115 and
131-132): both solutions are copies of the initial one and the counters are
zero. -/
def localSearchStart (initialSolution : Solution) : LocalSearchState :=
  { solution := initialSolution
    bestSolution := initialSolution
    metrics := { numberOfIterations := 0, numberOfIterationsWithoutImprovement := 0 } }

/-- The run of `localSearchHeuristic` with the final values of its
variables. -/
def localSearchRun (graph : Graph) (initialSolution : Solution)
    (numberOfPerturbations : Nat) (stopCriteriaNotMet : LocalSearchMetrics → Bool)
    (outcomes : LocalSearchOutcomes) (fuel : Nat) : Option LocalSearchState :=
  localSearchLoop graph numberOfPerturbations stopCriteriaNotMet outcomes fuel
    (localSearchStart initialSolution)

/-- The function `traffic::localSearchHeuristic` (heuristic.cpp, lines
114-193): the value of `bestSolution` when the main loop ends. -/
def localSearchHeuristic (graph : Graph) (initialSolution : Solution)
    (numberOfPerturbations : Nat) (stopCriteriaNotMet : LocalSearchMetrics → Bool)
    (outcomes : LocalSearchOutcomes) (fuel : Nat) : Option Solution :=
  (localSearchRun graph initialSolution numberOfPerturbations stopCriteriaNotMet
    outcomes fuel).map (fun st => st.bestSolution)

/-- The criterion `stop_criteria::numberOfIterations` (lines 195-199). -/
def stop_criteria.numberOfIterations (numberOfIterationsToStop : Nat) :
    LocalSearchMetrics → Bool :=
  fun metrics => decide (metrics.numberOfIterations < numberOfIterationsToStop)

/-- The criterion `stop_criteria::numberOfIterationsWithoutImprovement`
(lines 201-205). -/
def stop_criteria.numberOfIterationsWithoutImprovement (numberOfIterationsToStop : Nat) :
    LocalSearchMetrics → Bool :=
  fun metrics =>
    decide (metrics.numberOfIterationsWithoutImprovement < numberOfIterationsToStop)

/-- The loop body of `localSearchHeuristic` executed `k` times in a row. -/
def localSearchIterations (graph : Graph) (numberOfPerturbations : Nat)
    (outcomes : LocalSearchOutcomes) : Nat → LocalSearchState → Option LocalSearchState
  | 0, st => some st
  | k + 1, st =>
    match localSearchIteration graph numberOfPerturbations outcomes st with
    | none => none
    | some st1 => localSearchIterations graph numberOfPerturbations outcomes k st1

/-- The total penalty of a solution: the sum of `vertexPenalty` over all the
vertices of the graph. -/
def totalPenalty (graph : Graph) (s : Solution) : TimeUnit :=
  ∑ v ∈ Finset.range graph.getNumberOfVertices, graph.vertexPenalty v s

/-! ## Parts of the iterations named in the statements -/

/-- The secondary vertex (lines 58-62): the entry of the neighbourhood of
`vertex1` at the index drawn by the edge picker in the iteration number `n`,
whose declared range is `[0, size() - 1]`; `none` when the index is past the
end of the neighbourhood. -/
def pickedNeighbor (graph : Graph) (draws : HeuristicDraws) (n : Nat)
    (vertex1 : Vertex) : Option (Vertex × Weight) :=
  (graph.neighborsOf vertex1).get?
    (draws.edgePicker n ((graph.neighborsOf vertex1).length - 1))

/-- The body of the main loop of `constructHeuristicSolution` from the
sampling of the candidate timings on (lines 64-85), for the vertices
`vertex1` and `vertex2`. -/
def heuristicIterationWith (graph : Graph) (numberOfTuplesToTestPerIteration : Nat)
    (maxPenaltyPossible : TimeUnit) (draws : HeuristicDraws)
    (vertex1 vertex2 : Vertex) (st : HeuristicState) : Option HeuristicState :=
  let candidateTimings :=
    (List.range (2 * numberOfTuplesToTestPerIteration)).map
      (fun i => draws.timingPicker st.iterations i)
  let c := (List.range numberOfTuplesToTestPerIteration).foldl
    (candidateStep graph vertex1 vertex2 candidateTimings)
    { solution := st.solution
      bestPenalty := maxPenaltyPossible
      bestVertex1Timing := st.bestVertex1Timing
      bestVertex2Timing := st.bestVertex2Timing }
  match c.bestVertex1Timing, c.bestVertex2Timing with
  | some bestVertex1Timing, some bestVertex2Timing =>
    some
      { solution := setTiming (setTiming c.solution vertex1 bestVertex1Timing)
          vertex2 bestVertex2Timing
        bestVertex1Timing := some bestVertex1Timing
        bestVertex2Timing := some bestVertex2Timing
        iterations := st.iterations + 1
        visited := st.visited ++ [vertex1] }
  | _, _ => none

/-- The penalty of a candidate pair `(t1, t2)` for `(vertex1, vertex2)` as
line 76 computes it: the `TimeUnit` sum of the penalties of the two vertices
under the solution `s` with `vertex1` set to `t1` and `vertex2` set to
`t2`. -/
def pairPenalty (graph : Graph) (vertex1 vertex2 : Vertex) (s : Solution)
    (t1 t2 : TimeUnit) : TimeUnit :=
  wrapTimeUnit
    (graph.vertexPenalty vertex1 (setTiming (setTiming s vertex1 t1) vertex2 t2)
      + graph.vertexPenalty vertex2 (setTiming (setTiming s vertex1 t1) vertex2 t2))

/-- The `M + 1` candidates of an iteration of the local search, as the
specification lists them: slot 0 is the current timing of `vertex` in
`solution` with the penalty of `vertex` under `bestSolution`; slot `i` in
`1, ..., M` is the timing drawn for it with the penalty of `vertex` under
`solution` with that timing. -/
def candidateList (graph : Graph) (numberOfPerturbations : Nat) (vertex : Vertex)
    (timingPicker : Nat → TimeUnit) (solution bestSolution : Solution) :
    List Perturbation :=
  { timing := getTiming solution vertex
    penalty := graph.vertexPenalty vertex bestSolution } ::
  (List.range' 1 numberOfPerturbations).map
    (fun i =>
      { timing := timingPicker i
        penalty := graph.vertexPenalty vertex (setTiming solution vertex (timingPicker i)) })

/-- The cumulative penalty of the slots `0, ..., i` of an array of
candidates. -/
def cumulativePenalty (l : List Perturbation) (i : Nat) : TimeUnit :=
  ((l.take (i + 1)).map (fun p => p.penalty)).sum

/-- The value of `bestSolution` after an iteration of the local search that
picks `vertex` and draws the timings `timingPicker 1, ..., timingPicker M`,
as a function of `bestSolution` before the iteration (lines 139-162). -/
def bestSolutionAfter (graph : Graph) (numberOfPerturbations : Nat) (vertex : Vertex)
    (timingPicker : Nat → TimeUnit) (bestSolution : Solution) : Solution :=
  setTiming
    (perturbationLoop graph numberOfPerturbations vertex timingPicker
      bestSolution bestSolution).bestSolution
    vertex
    (perturbationLoop graph numberOfPerturbations vertex timingPicker
      bestSolution bestSolution).bestTiming

/-- The variables of the loop over the perturbations when that loop ends, in
the iteration of the local search that starts in the state `st`. -/
def iterationPerturbations (graph : Graph) (numberOfPerturbations : Nat)
    (outcomes : LocalSearchOutcomes) (st : LocalSearchState) : PerturbationState :=
  perturbationLoop graph numberOfPerturbations
    (outcomes.vertexPicker st.metrics.numberOfIterations)
    (outcomes.timingPicker st.metrics.numberOfIterations) st.solution st.bestSolution

/-- The candidates of the iteration of the local search that starts in the
state `st`. -/
def iterationCandidates (graph : Graph) (numberOfPerturbations : Nat)
    (outcomes : LocalSearchOutcomes) (st : LocalSearchState) : List Perturbation :=
  candidateList graph numberOfPerturbations
    (outcomes.vertexPicker st.metrics.numberOfIterations)
    (outcomes.timingPicker st.metrics.numberOfIterations) st.solution st.bestSolution

/-- The candidates of the iteration that starts in `st`, as `std::sort`
leaves them. -/
def iterationSorted (graph : Graph) (numberOfPerturbations : Nat)
    (outcomes : LocalSearchOutcomes) (st : LocalSearchState) : List Perturbation :=
  outcomes.sort (iterationCandidates graph numberOfPerturbations outcomes st)

/-- The roulette target of the iteration that starts in `st`: the draw from
the range whose upper end is the sum of the penalties of all candidates. -/
def iterationTarget (graph : Graph) (numberOfPerturbations : Nat)
    (outcomes : LocalSearchOutcomes) (st : LocalSearchState) : TimeUnit :=
  outcomes.roulettePicker st.metrics.numberOfIterations
    ((iterationCandidates graph numberOfPerturbations outcomes st).map
      (fun p => p.penalty)).sum

/-- The penalty of the candidate pair number `i` of an iteration of the
heuristic constructor: the pair `(timingPicker (2 i), timingPicker (2 i + 1))`
tried on the solution `s` of the start of the iteration. -/
def candidatePenalty (graph : Graph) (vertex1 vertex2 : Vertex) (s : Solution)
    (timingPicker : Nat → TimeUnit) (i : Nat) : TimeUnit :=
  pairPenalty graph vertex1 vertex2 s (timingPicker (i * 2)) (timingPicker (i * 2 + 1))

/-! ## Conditions on the inputs -/

/-- Every vertex of the graph has a non-empty neighbourhood, all of whose
members are vertices of the graph. -/
def Graph.ValidNeighborhoods (graph : Graph) : Prop :=
  ∀ v, v < graph.getNumberOfVertices →
    graph.neighborsOf v ≠ [] ∧
    ∀ p ∈ graph.neighborsOf v, p.1 < graph.getNumberOfVertices

/-- The outcomes respect the library contracts: `shuffle` permutes its
vector, and every draw lies in the declared range of its distribution. -/
def HeuristicDraws.Valid (graph : Graph) (draws : HeuristicDraws) : Prop :=
  (∀ l, (draws.shuffle l).Perm l) ∧
  (∀ n hi, draws.edgePicker n hi ≤ hi) ∧
  (∀ n i, 0 ≤ draws.timingPicker n i ∧ draws.timingPicker n i ≤ graph.getCycle - 1)

/-- The outcomes respect the library contracts: every draw lies in the
declared range of its distribution (for the roulette, whenever the range
`[0, hi]` is not empty), and `std::sort` leaves a permutation of the array in
which no slot has a smaller penalty than a slot before it. -/
def LocalSearchOutcomes.Valid (graph : Graph) (outcomes : LocalSearchOutcomes) : Prop :=
  (∀ n, outcomes.vertexPicker n < graph.getNumberOfVertices) ∧
  (∀ n i, 0 ≤ outcomes.timingPicker n i ∧ outcomes.timingPicker n i ≤ graph.getCycle - 1) ∧
  (∀ n hi, 0 ≤ hi → 0 ≤ outcomes.roulettePicker n hi ∧ outcomes.roulettePicker n hi ≤ hi) ∧
  (∀ l, (outcomes.sort l).Perm l ∧
    (outcomes.sort l).Pairwise (fun a b => a.penalty ≤ b.penalty))

/-- No `TimeUnit` operation of `distance` overflows on the solutions `a` and
`b`: every difference of timings, its absolute value, every
counter-clockwise distance and every partial sum of the exact terms is a
value of `TimeUnit`. -/
def DistanceFits (graph : Graph) (a b : Solution) : Prop :=
  (∀ v, v < graph.getNumberOfVertices →
    IsTimeUnit (a v - b v) ∧ IsTimeUnit |a v - b v| ∧
    IsTimeUnit (graph.getCycle - |a v - b v|)) ∧
  (∀ n, n ≤ graph.getNumberOfVertices →
    IsTimeUnit (∑ v ∈ Finset.range n,
      min |a v - b v| (graph.getCycle - |a v - b v|)))

/-- Every penalty of the graph is non-negative. -/
def Graph.NonnegPenalties (graph : Graph) : Prop :=
  ∀ v s, 0 ≤ graph.vertexPenalty v s

/-- Changing the timing of one vertex of the graph without raising the
penalty of that vertex does not raise the total penalty. -/
def Graph.PenaltyCompatible (graph : Graph) : Prop :=
  ∀ v, v < graph.getNumberOfVertices → ∀ s t,
    graph.vertexPenalty v (setTiming s v t) ≤ graph.vertexPenalty v s →
    totalPenalty graph (setTiming s v t) ≤ totalPenalty graph s

/-! ## Sample inputs -/

/-- A graph with `n` vertices and cycle length `c`, without edges and with
zero penalties; enough for the functions that only read `n` and `c`. -/
def plainGraph (n : Nat) (c : TimeUnit) : Graph :=
  { getNumberOfVertices := n
    getCycle := c
    neighborsOf := fun _ => []
    vertexPenalty := fun _ _ => 0 }

/-- The solution given by a list of timings (vertices past the end read 0). -/
def solutionOfList (l : List TimeUnit) : Solution := fun v => l.getD v 0

/-- Two vertices joined by an edge, cycle length 4, all penalties zero. -/
def pairGraph : Graph :=
  { getNumberOfVertices := 2
    getCycle := 4
    neighborsOf := fun v => if v = 0 then [(1, 1)] else [(0, 1)]
    vertexPenalty := fun _ _ => 0 }

/-- Two vertices joined by an edge, cycle length 4; the penalty of vertex 0
is the constant 2147483647 and the penalty of vertex 1 is 0. -/
def sentinelGraph : Graph :=
  { getNumberOfVertices := 2
    getCycle := 4
    neighborsOf := fun v => if v = 0 then [(1, 1)] else [(0, 1)]
    vertexPenalty := fun v _ => if v = 0 then 2147483647 else 0 }

/-- Outcomes for the heuristic constructor: the shuffle leaves the vector as
it is, the edge picker draws 0 and the timing picker draws `(n + i) mod 4`. -/
def plainDraws : HeuristicDraws :=
  { shuffle := fun l => l
    edgePicker := fun _ _ => 0
    timingPicker := fun n i => ((n + i) % 4 : Nat) }

/-- The array sorted by ascending penalty with an insertion sort: one of the
orders that `std::sort` may leave. -/
def sortByPenalty (l : List Perturbation) : List Perturbation :=
  l.insertionSort (fun a b => a.penalty ≤ b.penalty)

/-- The cost 1 of two equal timings, 0 of two different ones. -/
def conflict (x y : Int) : Int := if x = y then 1 else 0

/-- The 3-cycle 0-1-2-0 with cycle length 6; the penalty of a vertex counts
its neighbours that have the same timing. -/
def cycle3Graph : Graph :=
  { getNumberOfVertices := 3
    getCycle := 6
    neighborsOf := fun v => [((v + 1) % 3, 1), ((v + 2) % 3, 1)]
    vertexPenalty := fun v s =>
      conflict (s v) (s ((v + 1) % 3)) + conflict (s v) (s ((v + 2) % 3)) }

/-- Outcomes for the local search on the 3-cycle: the vertex `n mod 3` is
picked in the iteration `n`, the timing `(n + i) mod 6` is drawn for the slot
`i`, the roulette target is 0 and the sort is `sortByPenalty`. -/
def cycle3Outcomes : LocalSearchOutcomes :=
  { vertexPicker := fun n => n % 3
    timingPicker := fun n i => ((n + i) % 6 : Nat)
    roulettePicker := fun _ _ => 0
    sort := sortByPenalty }

/-- Two vertices joined by an edge, cycle length 2.  Vertex 0 pays 1 when
both timings are equal, vertex 1 pays 2 when they differ. -/
def conflictGraph : Graph :=
  { getNumberOfVertices := 2
    getCycle := 2
    neighborsOf := fun v => if v = 0 then [(1, 1)] else [(0, 1)]
    vertexPenalty := fun v s =>
      if v = 0 then (if s 0 = s 1 then 1 else 0) else (if s 0 = s 1 then 0 else 2) }

/-- Outcomes for the local search on `conflictGraph`: vertex 0 is picked,
the timing 1 is drawn, the roulette target is 0 and the sort is
`sortByPenalty`. -/
def firstOutcomes : LocalSearchOutcomes :=
  { vertexPicker := fun _ => 0
    timingPicker := fun _ _ => 1
    roulettePicker := fun _ _ => 0
    sort := sortByPenalty }

/-- Outcomes for the local search on the 3-cycle as `cycle3Outcomes`, except
that the timing 0 is drawn in the iteration 0 and the timing 1 afterwards. -/
def resetOutcomes : LocalSearchOutcomes :=
  { vertexPicker := fun n => n % 3
    timingPicker := fun n _ => if n = 0 then 0 else 1
    roulettePicker := fun _ _ => 0
    sort := sortByPenalty }

/-- Outcomes for the local search on the 3-cycle as `cycle3Outcomes`, except
that the roulette target is the upper end of its range. -/
def cycle3OutcomesHigh : LocalSearchOutcomes :=
  { vertexPicker := fun n => n % 3
    timingPicker := fun n i => ((n + i) % 6 : Nat)
    roulettePicker := fun _ hi => hi
    sort := sortByPenalty }

/-- Two vertices joined by an edge, cycle length 4.  When the timing of
vertex 0 is 2, the penalty of vertex 0 is 2147483647; all other penalties
are 0. -/
def staleGraph : Graph :=
  { getNumberOfVertices := 2
    getCycle := 4
    neighborsOf := fun v => if v = 0 then [(1, 1)] else [(0, 1)]
    vertexPenalty := fun v s => if s 0 = 2 then (if v = 0 then 2147483647 else 0) else 0 }

/-- Outcomes for the heuristic constructor on `staleGraph`: the shuffle
leaves the vector as it is, the edge picker draws 0, and the timing picker
draws the pair (1, 1) in the iteration 0 and the pair (2, 3) afterwards. -/
def staleDraws : HeuristicDraws :=
  { shuffle := fun l => l
    edgePicker := fun _ _ => 0
    timingPicker := fun n i => if n = 0 then 1 else (if i = 0 then 2 else 3) }

/-- The variables of `constructHeuristicSolution` before its main loop, for
a graph and the content `fresh` of the new `Solution`. -/
def heuristicStart (graph : Graph) (fresh : Solution) : HeuristicState :=
  { solution := baselineSolution graph fresh
    bestVertex1Timing := none
    bestVertex2Timing := none
    iterations := 0
    visited := [] }

/-! ## Lemmas on `distance` -/

/-- The circular distance of two timings on a ring of length `c`. -/
def circularDistance (c x y : Int) : Int :=
  min |x - y| (c - |x - y|)

/-- The term that `distance` adds for one vertex, as the machine computes
it: the smaller of the clockwise and the counter-clockwise distance. -/
def distanceTerm (c x y : Int) : Int :=
  if wrapTimeUnit |wrapTimeUnit (x - y)|
      < wrapTimeUnit (c - wrapTimeUnit |wrapTimeUnit (x - y)|) then
    wrapTimeUnit |wrapTimeUnit (x - y)|
  else
    wrapTimeUnit (c - wrapTimeUnit |wrapTimeUnit (x - y)|)

theorem wrapTimeUnit_of_isTimeUnit {x : Int} (h : IsTimeUnit x) : wrapTimeUnit x = x := by
  unfold IsTimeUnit at h
  unfold wrapTimeUnit
  omega

theorem wrapTimeUnit_isTimeUnit (x : Int) : IsTimeUnit (wrapTimeUnit x) := by
  unfold IsTimeUnit wrapTimeUnit
  omega

theorem wrapTimeUnit_neg (x : Int) :
    wrapTimeUnit (-x) = -wrapTimeUnit x ∨
    (wrapTimeUnit x = -2147483648 ∧ wrapTimeUnit (-x) = -2147483648) := by
  unfold wrapTimeUnit
  omega

theorem abs_wrapTimeUnit_sub (x y : Int) :
    |wrapTimeUnit (x - y)| = |wrapTimeUnit (y - x)| := by
  have h := wrapTimeUnit_neg (x - y)
  rw [neg_sub] at h
  rcases h with h | ⟨h1, h2⟩
  · rw [h, abs_neg]
  · rw [h1, h2]

/-- The loop of `distance` adds `distanceTerm` for every vertex. -/
theorem distance_eq_foldl (graph : Graph) (a b : Solution) :
    distance graph a b
      = (List.range graph.getNumberOfVertices).foldl
          (fun total v => wrapTimeUnit (total + distanceTerm graph.getCycle (a v) (b v))) 0 := by
  unfold distance
  congr 1
  funext totalDistance v
  simp only [getTiming, distanceTerm]
  split_ifs <;> rfl

theorem distanceTerm_comm (c x y : Int) : distanceTerm c x y = distanceTerm c y x := by
  unfold distanceTerm
  rw [abs_wrapTimeUnit_sub x y]

theorem distanceTerm_isTimeUnit (c x y : Int) : IsTimeUnit (distanceTerm c x y) := by
  unfold distanceTerm
  split_ifs
  · exact wrapTimeUnit_isTimeUnit _
  · exact wrapTimeUnit_isTimeUnit _

/-- On a ring of length `c ≥ 1` the term of two timings in `[0, c)` is at
most `floor(c / 2)`. -/
theorem distanceTerm_le_half (c x y : Int) (hc : 1 ≤ c) (_hx : 0 ≤ x ∧ x < c)
    (hy : 0 ≤ y ∧ y < c) : distanceTerm c x y ≤ c / 2 := by
  unfold distanceTerm
  rcases abs_cases (wrapTimeUnit (x - y)) with ⟨h, hs⟩ | ⟨h, hs⟩ <;> rw [h] <;>
    unfold wrapTimeUnit at hs ⊢ <;> split_ifs <;> omega

/-- On a ring of length `c ≥ 1` the term of two timings in `[0, c)` is
non-negative, unless `c` is so large that `floor(c / 2)` is at least
`2^30`. -/
theorem distanceTerm_nonneg_or (c x y : Int) (hc : 1 ≤ c) (hx : 0 ≤ x ∧ x < c)
    (hy : 0 ≤ y ∧ y < c) : 0 ≤ distanceTerm c x y ∨ 1073741824 ≤ c / 2 := by
  unfold distanceTerm
  rcases abs_cases (wrapTimeUnit (x - y)) with ⟨h, hs⟩ | ⟨h, hs⟩ <;> rw [h] <;>
    unfold wrapTimeUnit at hs ⊢ <;> split_ifs <;> omega

/-- When no operation overflows, the term is the circular distance. -/
theorem distanceTerm_exact (c x y : Int) (h1 : IsTimeUnit (x - y)) (h2 : IsTimeUnit |x - y|)
    (h3 : IsTimeUnit (c - |x - y|)) : distanceTerm c x y = circularDistance c x y := by
  unfold distanceTerm circularDistance
  rw [wrapTimeUnit_of_isTimeUnit h1, wrapTimeUnit_of_isTimeUnit h2,
    wrapTimeUnit_of_isTimeUnit h3]
  split_ifs with hlt
  · rw [min_eq_left (le_of_lt hlt)]
  · rw [min_eq_right (not_lt.mp hlt)]

theorem distanceTerm_self (c x : Int) (hc : 1 ≤ c) (hmax : c ≤ 2147483647) :
    distanceTerm c x x = 0 := by
  unfold distanceTerm
  rw [sub_self]
  have h0 : wrapTimeUnit 0 = 0 := by decide
  rw [h0, abs_zero, h0, sub_zero]
  have hcw : wrapTimeUnit c = c := wrapTimeUnit_of_isTimeUnit ⟨by omega, hmax⟩
  rw [hcw, if_pos (by omega)]

/-- One addition of the loop of `distance` keeps the total under the bound:
`t` is the total so far, `B` the bound so far, `h` the bound of a term. -/
theorem wrapTimeUnit_add_le (t term B h : Int) (ht : IsTimeUnit t) (hterm : IsTimeUnit term)
    (hle : term ≤ h) (htB : t ≤ B)
    (hcase : 0 ≤ term ∨ (1073741824 ≤ h ∧ ((t = 0 ∧ B = 0) ∨ h ≤ B))) :
    wrapTimeUnit (t + term) ≤ B + h := by
  unfold IsTimeUnit at ht hterm
  unfold wrapTimeUnit
  omega

/-- The total after the first `n` vertices is a value of `TimeUnit` and is at
most `n * floor(C / 2)`, for timings in `[0, C)` on a ring of length
`C ≥ 1`. -/
theorem distance_foldl_le (c : Int) (a b : Solution) (N : Nat) (hc : 1 ≤ c)
    (ha : ∀ v, v < N → 0 ≤ a v ∧ a v < c) (hb : ∀ v, v < N → 0 ≤ b v ∧ b v < c)
    (n : Nat) (hn : n ≤ N) :
    IsTimeUnit ((List.range n).foldl
      (fun total v => wrapTimeUnit (total + distanceTerm c (a v) (b v))) 0) ∧
    (List.range n).foldl
      (fun total v => wrapTimeUnit (total + distanceTerm c (a v) (b v))) 0
      ≤ (n : Int) * (c / 2) ∧
    (n = 0 → (List.range n).foldl
      (fun total v => wrapTimeUnit (total + distanceTerm c (a v) (b v))) 0 = 0) := by
  induction n with
  | zero =>
    refine ⟨?_, ?_, fun _ => rfl⟩
    · show IsTimeUnit 0
      unfold IsTimeUnit
      omega
    · show (0 : Int) ≤ ((0 : Nat) : Int) * (c / 2)
      simp
  | succ k ih =>
    obtain ⟨hrep, hle, hzero⟩ := ih (by omega)
    rw [List.range_succ, List.foldl_append]
    simp only [List.foldl_cons, List.foldl_nil]
    refine ⟨wrapTimeUnit_isTimeUnit _, ?_, fun h => absurd h (Nat.succ_ne_zero k)⟩
    have hhalf : (0 : Int) ≤ c / 2 := by omega
    have hcast : ((k + 1 : Nat) : Int) * (c / 2) = (k : Int) * (c / 2) + c / 2 := by
      push_cast
      ring
    rw [hcast]
    apply wrapTimeUnit_add_le _ _ _ _ hrep (distanceTerm_isTimeUnit _ _ _)
      (distanceTerm_le_half c _ _ hc (ha k (by omega)) (hb k (by omega))) hle
    rcases distanceTerm_nonneg_or c (a k) (b k) hc (ha k (by omega)) (hb k (by omega))
      with hnn | hbig
    · exact Or.inl hnn
    · right
      refine ⟨hbig, ?_⟩
      rcases Nat.eq_zero_or_pos k with hk0 | hkpos
      · left
        exact ⟨hzero hk0, by rw [hk0]; simp⟩
      · right
        have h1 : (1 : Int) ≤ (k : Int) := by exact_mod_cast hkpos
        nlinarith

/-- When no operation overflows, the total after the first `n` vertices is
the exact sum of the circular distances. -/
theorem distance_foldl_exact (graph : Graph) (a b : Solution)
    (hfit : DistanceFits graph a b) (n : Nat) (hn : n ≤ graph.getNumberOfVertices) :
    (List.range n).foldl
      (fun total v => wrapTimeUnit (total + distanceTerm graph.getCycle (a v) (b v))) 0
      = ∑ v ∈ Finset.range n, circularDistance graph.getCycle (a v) (b v) := by
  induction n with
  | zero => simp
  | succ k ih =>
    obtain ⟨h1, h2, h3⟩ := hfit.1 k (by omega)
    have hsum := hfit.2 (k + 1) hn
    rw [List.range_succ, List.foldl_append]
    simp only [List.foldl_cons, List.foldl_nil]
    rw [ih (by omega), distanceTerm_exact _ _ _ h1 h2 h3, Finset.sum_range_succ]
    apply wrapTimeUnit_of_isTimeUnit
    rw [Finset.sum_range_succ] at hsum
    exact hsum

theorem distance_eq_sum_of_fits (graph : Graph) (a b : Solution)
    (hfit : DistanceFits graph a b) :
    distance graph a b
      = ∑ v ∈ Finset.range graph.getNumberOfVertices,
          circularDistance graph.getCycle (a v) (b v) := by
  rw [distance_eq_foldl]
  exact distance_foldl_exact graph a b hfit _ (le_refl _)

theorem circularDistance_comm (c x y : Int) :
    circularDistance c x y = circularDistance c y x := by
  unfold circularDistance
  rw [abs_sub_comm x y]

theorem circularDistance_nonneg {c x y : Int}
    (hx : 0 ≤ x ∧ x < c) (hy : 0 ≤ y ∧ y < c) : 0 ≤ circularDistance c x y := by
  unfold circularDistance
  have h1 : |x - y| < c := by
    rw [abs_lt]; constructor <;> omega
  exact le_min (abs_nonneg _) (by omega)

theorem circularDistance_eq_zero_iff {c x y : Int}
    (hx : 0 ≤ x ∧ x < c) (hy : 0 ≤ y ∧ y < c) :
    circularDistance c x y = 0 ↔ x = y := by
  unfold circularDistance
  have h1 : |x - y| < c := by
    rw [abs_lt]; constructor <;> omega
  have h0 : 0 ≤ |x - y| := abs_nonneg _
  constructor
  · intro h
    have : |x - y| = 0 := by
      rcases min_choice |x - y| (c - |x - y|) with hm | hm
      · rw [hm] at h; exact h
      · rw [hm] at h; omega
    have := abs_eq_zero.mp this
    omega
  · intro h
    subst h
    simp
    omega

theorem circularDistance_self {c : Int} (hc : 0 ≤ c) (x : Int) :
    circularDistance c x x = 0 := by
  unfold circularDistance
  simp
  exact hc

theorem circularDistance_le_half (c x y : Int) :
    circularDistance c x y ≤ c / 2 := by
  unfold circularDistance
  by_cases h : |x - y| ≤ c / 2
  · exact le_trans (min_le_left _ _) h
  · refine le_trans (min_le_right _ _) ?_
    omega

/-- For timings in `[0, C)` on a ring of representable length `C` whose exact
distance does not exceed `numeric_limits<TimeUnit>::max()`, no operation of
`distance` overflows. -/
theorem distanceFits_of_range (graph : Graph) (a b : Solution)
    (hmax : graph.getCycle ≤ 2147483647)
    (ha : ∀ v, v < graph.getNumberOfVertices → 0 ≤ a v ∧ a v < graph.getCycle)
    (hb : ∀ v, v < graph.getNumberOfVertices → 0 ≤ b v ∧ b v < graph.getCycle)
    (hsum : ∑ v ∈ Finset.range graph.getNumberOfVertices,
        min |a v - b v| (graph.getCycle - |a v - b v|) ≤ 2147483647) :
    DistanceFits graph a b := by
  have habs : ∀ v, v < graph.getNumberOfVertices →
      0 ≤ |a v - b v| ∧ |a v - b v| < graph.getCycle := by
    intro v hv
    have h1 := ha v hv
    have h2 := hb v hv
    refine ⟨abs_nonneg _, ?_⟩
    rw [abs_lt]
    constructor
    · linarith [h1.1, h2.2]
    · linarith [h1.2, h2.1]
  constructor
  · intro v hv
    have h1 := ha v hv
    have h2 := hb v hv
    have h3 := habs v hv
    unfold IsTimeUnit
    refine ⟨⟨?_, ?_⟩, ⟨?_, ?_⟩, ⟨?_, ?_⟩⟩ <;> linarith [h1.1, h1.2, h2.1, h2.2, h3.1, h3.2]
  · intro n hn
    have hnonneg : ∀ v ∈ Finset.range graph.getNumberOfVertices,
        0 ≤ min |a v - b v| (graph.getCycle - |a v - b v|) := by
      intro v hv
      have h3 := habs v (Finset.mem_range.mp hv)
      exact le_min h3.1 (by linarith [h3.2])
    have hsub : Finset.range n ⊆ Finset.range graph.getNumberOfVertices :=
      Finset.range_subset.mpr hn
    have hle := Finset.sum_le_sum_of_subset_of_nonneg hsub
      (fun v hv _ => hnonneg v hv)
    have hge : 0 ≤ ∑ v ∈ Finset.range n,
        min |a v - b v| (graph.getCycle - |a v - b v|) :=
      Finset.sum_nonneg (fun v hv => hnonneg v (hsub hv))
    unfold IsTimeUnit
    constructor
    · linarith
    · linarith

theorem plainScenario_fits :
    DistanceFits (plainGraph 2 4) (solutionOfList [0, 0]) (solutionOfList [3, 1]) := by
  apply distanceFits_of_range
  · decide
  · decide
  · decide
  · decide

/-! ## Theorems on `distance` -/

/-- C1, as amended: when no `TimeUnit` operation of the computation
overflows, `distance` is the sum over the vertices `v < N` of
`min(|a(v) - b(v)|, C - |a(v) - b(v)|)`. -/
theorem distance_is_sum_of_circular_distances (graph : Graph) (a b : Solution)
    (hfit : DistanceFits graph a b) :
    distance graph a b
      = ∑ v ∈ Finset.range graph.getNumberOfVertices,
          min |a v - b v| (graph.getCycle - |a v - b v|) :=
  distance_eq_sum_of_fits graph a b hfit

/-- Witness of C1 as amended: on the ring of length 4 the solutions
`{0:0, 1:0}` and `{0:3, 1:1}` are at distance `min(3,1) + min(1,3) = 2`. -/
theorem distance_is_sum_of_circular_distances_witness :
    DistanceFits (plainGraph 2 4) (solutionOfList [0, 0]) (solutionOfList [3, 1]) ∧
    distance (plainGraph 2 4) (solutionOfList [0, 0]) (solutionOfList [3, 1])
      = ∑ v ∈ Finset.range (plainGraph 2 4).getNumberOfVertices,
          min |solutionOfList [0, 0] v - solutionOfList [3, 1] v|
            ((plainGraph 2 4).getCycle - |solutionOfList [0, 0] v - solutionOfList [3, 1] v|) ∧
    distance (plainGraph 2 4) (solutionOfList [0, 0]) (solutionOfList [3, 1]) = 2 :=
  ⟨plainScenario_fits,
   distance_is_sum_of_circular_distances (plainGraph 2 4) (solutionOfList [0, 0])
     (solutionOfList [3, 1]) plainScenario_fits,
   by decide⟩

/-- Counterexample to C1 as stated.  With `C = 4`, `a = {0: -2147483648}` and
`b = {0: 0}` the absolute value and the subtraction overflow: `distance`
returns -2147483648 while the sum of the claim is -2147483644.  With
`C = 2147483647`, `a = {0, 0, 0}` and `b` equal to `2^30` everywhere, all
timings are in `[0, C)` and the total overflows: `distance` returns
-1073741827 while the sum of the claim is 3221225469. -/
theorem distance_overflow_counterexample :
    distance (plainGraph 1 4) (solutionOfList [-2147483648]) (solutionOfList [0])
      = -2147483648 ∧
    (∑ v ∈ Finset.range (plainGraph 1 4).getNumberOfVertices,
      min |solutionOfList [-2147483648] v - solutionOfList [0] v|
        ((plainGraph 1 4).getCycle
          - |solutionOfList [-2147483648] v - solutionOfList [0] v|)) = -2147483644 ∧
    distance (plainGraph 3 2147483647) (solutionOfList [0, 0, 0])
        (solutionOfList [1073741824, 1073741824, 1073741824])
      = -1073741827 ∧
    (∑ v ∈ Finset.range (plainGraph 3 2147483647).getNumberOfVertices,
      min |solutionOfList [0, 0, 0] v
            - solutionOfList [1073741824, 1073741824, 1073741824] v|
        ((plainGraph 3 2147483647).getCycle
          - |solutionOfList [0, 0, 0] v
              - solutionOfList [1073741824, 1073741824, 1073741824] v|)) = 3221225469 :=
  ⟨by decide, by decide, by decide, by decide⟩

/-- C2: `distance` is symmetric in its two solutions. -/
theorem distance_symmetric (graph : Graph) (a b : Solution) :
    distance graph a b = distance graph b a := by
  rw [distance_eq_foldl, distance_eq_foldl]
  congr 1
  funext total v
  rw [distanceTerm_comm]

/-- C3, as amended: on a ring of length `C` with
`1 ≤ C ≤ numeric_limits<TimeUnit>::max()`, for solutions with timings in
`[0, C)` whose exact distance does not exceed
`numeric_limits<TimeUnit>::max()`, `distance` is zero exactly when the two
solutions agree on every vertex `v < N`; and the distance of any solution to
itself is zero. -/
theorem distance_zero_iff_identical (graph : Graph) (hC : 1 ≤ graph.getCycle)
    (hmax : graph.getCycle ≤ 2147483647) :
    (∀ a b : Solution,
      (∀ v, v < graph.getNumberOfVertices → 0 ≤ a v ∧ a v < graph.getCycle) →
      (∀ v, v < graph.getNumberOfVertices → 0 ≤ b v ∧ b v < graph.getCycle) →
      (∑ v ∈ Finset.range graph.getNumberOfVertices,
        min |a v - b v| (graph.getCycle - |a v - b v|) ≤ 2147483647) →
      (distance graph a b = 0 ↔ ∀ v, v < graph.getNumberOfVertices → a v = b v))
    ∧ (∀ a : Solution, distance graph a a = 0) := by
  constructor
  · intro a b ha hb hsum
    rw [distance_eq_sum_of_fits graph a b (distanceFits_of_range graph a b hmax ha hb hsum)]
    rw [Finset.sum_eq_zero_iff_of_nonneg
      (fun v hv => circularDistance_nonneg (ha v (Finset.mem_range.mp hv))
        (hb v (Finset.mem_range.mp hv)))]
    constructor
    · intro h v hv
      exact (circularDistance_eq_zero_iff (ha v hv) (hb v hv)).mp
        (h v (Finset.mem_range.mpr hv))
    · intro h v hv
      have hv := Finset.mem_range.mp hv
      exact (circularDistance_eq_zero_iff (ha v hv) (hb v hv)).mpr (h v hv)
  · intro a
    rw [distance_eq_foldl]
    generalize graph.getNumberOfVertices = N
    induction N with
    | zero => rfl
    | succ k ih =>
      rw [List.range_succ, List.foldl_append, ih]
      simp only [List.foldl_cons, List.foldl_nil]
      rw [distanceTerm_self _ _ hC hmax]
      decide

/-- Witness of C3 as amended: the ring of length 4 on 2 vertices. -/
theorem distance_zero_iff_identical_witness :
    (1 ≤ (plainGraph 2 4).getCycle ∧ (plainGraph 2 4).getCycle ≤ 2147483647) ∧
    ((∀ a b : Solution,
      (∀ v, v < (plainGraph 2 4).getNumberOfVertices →
        0 ≤ a v ∧ a v < (plainGraph 2 4).getCycle) →
      (∀ v, v < (plainGraph 2 4).getNumberOfVertices →
        0 ≤ b v ∧ b v < (plainGraph 2 4).getCycle) →
      (∑ v ∈ Finset.range (plainGraph 2 4).getNumberOfVertices,
        min |a v - b v| ((plainGraph 2 4).getCycle - |a v - b v|) ≤ 2147483647) →
      (distance (plainGraph 2 4) a b = 0
        ↔ ∀ v, v < (plainGraph 2 4).getNumberOfVertices → a v = b v))
    ∧ (∀ a : Solution, distance (plainGraph 2 4) a a = 0)) :=
  ⟨⟨by decide, by decide⟩,
   distance_zero_iff_identical (plainGraph 2 4) (by decide) (by decide)⟩

/-- Counterexample to C3 as stated: on 8 vertices with `C = 2^30`, the
all-zero solution and the solution that is `2^29` everywhere have all their
timings in `[0, C)` and differ on every vertex; every term is `2^29`, the
total `2^32` overflows, and `distance` returns 0. -/
theorem distance_wraps_to_zero_counterexample :
    1 ≤ (plainGraph 8 1073741824).getCycle ∧
    (∀ v, v < (plainGraph 8 1073741824).getNumberOfVertices →
      0 ≤ (fun _ => 0 : Solution) v ∧
      (fun _ => 0 : Solution) v < (plainGraph 8 1073741824).getCycle) ∧
    (∀ v, v < (plainGraph 8 1073741824).getNumberOfVertices →
      0 ≤ (fun _ => 536870912 : Solution) v ∧
      (fun _ => 536870912 : Solution) v < (plainGraph 8 1073741824).getCycle) ∧
    distance (plainGraph 8 1073741824) (fun _ => 0) (fun _ => 536870912) = 0 ∧
    (fun _ => 0 : Solution) 0 ≠ (fun _ => 536870912 : Solution) 0 :=
  ⟨by decide, by decide, by decide, by decide, by decide⟩

/-- C4: on a ring of length `C ≥ 1`, for solutions with timings in `[0, C)`,
`distance` is at most `N * floor(C / 2)`. -/
theorem distance_bounded (graph : Graph) (a b : Solution)
    (hC : 1 ≤ graph.getCycle)
    (ha : ∀ v, v < graph.getNumberOfVertices → 0 ≤ a v ∧ a v < graph.getCycle)
    (hb : ∀ v, v < graph.getNumberOfVertices → 0 ≤ b v ∧ b v < graph.getCycle) :
    distance graph a b ≤ (graph.getNumberOfVertices : Int) * (graph.getCycle / 2) := by
  rw [distance_eq_foldl]
  exact (distance_foldl_le graph.getCycle a b graph.getNumberOfVertices hC ha hb
    graph.getNumberOfVertices (le_refl _)).2.1

/-- Witness of C4: on the ring of length 4 the solutions `{0:0, 1:0}` and
`{0:3, 1:1}` are at distance at most `2 * 2`. -/
theorem distance_bounded_witness :
    (1 ≤ (plainGraph 2 4).getCycle ∧
      (∀ v, v < (plainGraph 2 4).getNumberOfVertices →
        0 ≤ solutionOfList [0, 0] v ∧ solutionOfList [0, 0] v < (plainGraph 2 4).getCycle) ∧
      (∀ v, v < (plainGraph 2 4).getNumberOfVertices →
        0 ≤ solutionOfList [3, 1] v ∧
        solutionOfList [3, 1] v < (plainGraph 2 4).getCycle)) ∧
    distance (plainGraph 2 4) (solutionOfList [0, 0]) (solutionOfList [3, 1])
      ≤ ((plainGraph 2 4).getNumberOfVertices : Int) * ((plainGraph 2 4).getCycle / 2) :=
  ⟨⟨by decide, by decide, by decide⟩,
   distance_bounded (plainGraph 2 4) (solutionOfList [0, 0]) (solutionOfList [3, 1])
     (by decide) (by decide) (by decide)⟩

/-! ## Lemmas on the constructors -/

theorem foldl_setTiming_range (f : Nat → Int) (n : Nat) (fresh : Solution) (v : Nat) :
    ((List.range n).foldl (fun solution i => setTiming solution i (f i)) fresh) v
      = if v < n then f v else fresh v := by
  induction n with
  | zero => simp
  | succ k ih =>
    rw [List.range_succ, List.foldl_append]
    simp only [List.foldl_cons, List.foldl_nil, setTiming] at ih ⊢
    by_cases hv : v = k
    · subst hv
      simp
    · rw [Function.update_noteq hv, ih]
      by_cases hlt : v < k
      · simp [hlt, Nat.lt_succ_of_lt hlt]
      · have : ¬ v < k + 1 := by omega
        simp [hlt, this]

theorem unvisitedVerticesBuilt_eq (graph : Graph) :
    unvisitedVerticesBuilt graph
      = List.replicate graph.getNumberOfVertices 0
          ++ List.range graph.getNumberOfVertices := by
  unfold unvisitedVerticesBuilt
  generalize List.replicate graph.getNumberOfVertices 0 = init
  induction graph.getNumberOfVertices with
  | zero => simp
  | succ k ih =>
    rw [List.range_succ, List.foldl_append, ih]
    simp

theorem mem_unvisitedVerticesBuilt {graph : Graph} {v : Nat}
    (h : v ∈ unvisitedVerticesBuilt graph) : v < graph.getNumberOfVertices := by
  rw [unvisitedVerticesBuilt_eq, List.mem_append] at h
  rcases h with h | h
  · rw [List.mem_replicate] at h
    omega
  · exact List.mem_range.mp h

theorem candidateTimings_getD (f : Nat → Int) (n i : Nat) (h : i < n) :
    ((List.range n).map f).getD i 0 = f i := by
  rw [List.getD_eq_getElem?_getD, List.getElem?_map, List.getElem?_range h]
  rfl

/-- The loop over the first `k` candidate pairs leaves every vertex other
than `vertex1` and `vertex2` as it was. -/
theorem candidateLoop_frame (graph : Graph) (vertex1 vertex2 : Vertex)
    (cands : List TimeUnit) (c0 : CandidateState) (k : Nat) (v : Vertex)
    (h1 : v ≠ vertex1) (h2 : v ≠ vertex2) :
    ((List.range k).foldl (candidateStep graph vertex1 vertex2 cands) c0).solution v
      = c0.solution v := by
  induction k with
  | zero => simp
  | succ j ih =>
    rw [List.range_succ, List.foldl_append]
    simp only [List.foldl_cons, List.foldl_nil]
    unfold candidateStep
    simp only
    split_ifs <;>
    · simp only [setTiming]
      rw [Function.update_noteq h2, Function.update_noteq h1]
      exact ih

/-- After at least one candidate pair whose penalty is below the initial
value of `bestPenalty`, both best timings have been written with draws of the
timing picker. -/
theorem candidateLoop_best (graph : Graph) (vertex1 vertex2 : Vertex)
    (f : Nat → Int) (K : Nat) (c0 : CandidateState) (cycle : Int)
    (hf : ∀ i, 0 ≤ f i ∧ f i ≤ cycle - 1)
    (hP : ∀ s, wrapTimeUnit (graph.vertexPenalty vertex1 s + graph.vertexPenalty vertex2 s)
      < c0.bestPenalty)
    (k : Nat) (hk1 : 1 ≤ k) (hkK : k ≤ K) :
    ∃ t1 t2,
      ((List.range k).foldl
        (candidateStep graph vertex1 vertex2 ((List.range (2 * K)).map f)) c0).bestVertex1Timing
        = some t1 ∧
      ((List.range k).foldl
        (candidateStep graph vertex1 vertex2 ((List.range (2 * K)).map f)) c0).bestVertex2Timing
        = some t2 ∧
      (0 ≤ t1 ∧ t1 < cycle) ∧ (0 ≤ t2 ∧ t2 < cycle) := by
  induction k with
  | zero => omega
  | succ j ih =>
    rw [List.range_succ, List.foldl_append]
    simp only [List.foldl_cons, List.foldl_nil]
    have hj1 : j * 2 < 2 * K := by omega
    have hj2 : j * 2 + 1 < 2 * K := by omega
    have hr1 := hf (j * 2)
    have hr2 := hf (j * 2 + 1)
    rcases Nat.eq_zero_or_pos j with hj0 | hjpos
    · subst hj0
      simp only [List.range_zero, List.foldl_nil]
      unfold candidateStep
      simp only
      rw [if_pos (hP _)]
      rw [candidateTimings_getD f _ _ hj1, candidateTimings_getD f _ _ hj2]
      refine ⟨_, _, rfl, rfl, ⟨hr1.1, ?_⟩, ⟨hr2.1, ?_⟩⟩
      · have := hr1.2; linarith
      · have := hr2.2; linarith
    · obtain ⟨t1, t2, e1, e2, r1, r2⟩ := ih hjpos (by omega)
      unfold candidateStep
      simp only
      split_ifs
      · rw [candidateTimings_getD f _ _ hj1, candidateTimings_getD f _ _ hj2]
        refine ⟨_, _, rfl, rfl, ⟨hr1.1, ?_⟩, ⟨hr2.1, ?_⟩⟩
        · have := hr1.2; linarith
        · have := hr2.2; linarith
      · exact ⟨t1, t2, e1, e2, r1, r2⟩

/-- One iteration of the main loop has a result and keeps every timing in
`[0, C)`. -/
theorem heuristicIteration_in_range (graph : Graph) (K : Nat) (maxPenaltyPossible : Int)
    (draws : HeuristicDraws)
    (hG : graph.ValidNeighborhoods) (hK : 1 ≤ K) (hD : draws.Valid graph)
    (hP : ∀ v1 v2 s,
      wrapTimeUnit (graph.vertexPenalty v1 s + graph.vertexPenalty v2 s) < maxPenaltyPossible)
    (vertex1 : Vertex) (hv1 : vertex1 < graph.getNumberOfVertices)
    (st : HeuristicState)
    (hst : ∀ v, v < graph.getNumberOfVertices →
      0 ≤ st.solution v ∧ st.solution v < graph.getCycle) :
    ∃ st1, heuristicIteration graph K maxPenaltyPossible draws vertex1 st = some st1 ∧
      ∀ v, v < graph.getNumberOfVertices →
        0 ≤ st1.solution v ∧ st1.solution v < graph.getCycle := by
  obtain ⟨hne, _⟩ := hG vertex1 hv1
  obtain ⟨_, hedge, htim⟩ := hD
  have hlen : 0 < (graph.neighborsOf vertex1).length := List.length_pos.mpr hne
  have hlt : draws.edgePicker st.iterations ((graph.neighborsOf vertex1).length - 1)
      < (graph.neighborsOf vertex1).length := by
    have := hedge st.iterations ((graph.neighborsOf vertex1).length - 1)
    omega
  unfold heuristicIteration
  simp only
  rw [List.get?_eq_get hlt]
  simp only
  obtain ⟨t1, t2, e1, e2, r1, r2⟩ :=
    candidateLoop_best graph vertex1
      ((graph.neighborsOf vertex1).get ⟨_, hlt⟩).1
      (fun i => draws.timingPicker st.iterations i) K
      { solution := st.solution
        bestPenalty := maxPenaltyPossible
        bestVertex1Timing := st.bestVertex1Timing
        bestVertex2Timing := st.bestVertex2Timing }
      graph.getCycle (htim st.iterations) (fun s => hP _ _ s) K hK (le_refl K)
  rw [e1, e2]
  simp only
  refine ⟨_, rfl, ?_⟩
  intro v hv
  simp only [setTiming]
  by_cases h2 : v = ((graph.neighborsOf vertex1).get ⟨_, hlt⟩).1
  · rw [h2, Function.update_same]
    exact r2
  · rw [Function.update_noteq h2]
    by_cases h1 : v = vertex1
    · rw [h1, Function.update_same]
      exact r1
    · rw [Function.update_noteq h1, candidateLoop_frame _ _ _ _ _ _ _ h1 h2]
      exact hst v hv

/-- The main loop over a stack of vertices of the graph has a result and
keeps every timing in `[0, C)`. -/
theorem heuristicMainLoop_in_range (graph : Graph) (K : Nat) (maxPenaltyPossible : Int)
    (draws : HeuristicDraws)
    (hG : graph.ValidNeighborhoods) (hK : 1 ≤ K) (hD : draws.Valid graph)
    (hP : ∀ v1 v2 s,
      wrapTimeUnit (graph.vertexPenalty v1 s + graph.vertexPenalty v2 s) < maxPenaltyPossible)
    (stack : List Vertex) (hstack : ∀ v ∈ stack, v < graph.getNumberOfVertices)
    (st : HeuristicState)
    (hst : ∀ v, v < graph.getNumberOfVertices →
      0 ≤ st.solution v ∧ st.solution v < graph.getCycle) :
    ∃ st1, heuristicMainLoop graph K maxPenaltyPossible draws stack st = some st1 ∧
      ∀ v, v < graph.getNumberOfVertices →
        0 ≤ st1.solution v ∧ st1.solution v < graph.getCycle := by
  induction stack generalizing st with
  | nil => exact ⟨st, rfl, hst⟩
  | cons vertex1 rest ih =>
    obtain ⟨st1, e1, h1⟩ := heuristicIteration_in_range graph K maxPenaltyPossible draws
      hG hK hD hP vertex1 (hstack vertex1 (List.mem_cons_self _ _)) st hst
    obtain ⟨st2, e2, h2⟩ := ih (fun v hv => hstack v (List.mem_cons_of_mem _ hv)) st1 h1
    refine ⟨st2, ?_, h2⟩
    simp only [heuristicMainLoop, e1]
    exact e2

/-! ## Theorems on the constructors -/

/-- C5: when every draw of the timing picker lies in its declared range
`[0, C - 1]`, the solution returned by `constructRandomSolution` gives every
vertex `v < N` a timing in `[0, C)`. -/
theorem constructRandomSolution_in_range (graph : Graph) (timingPicker : Nat → TimeUnit)
    (fresh : Solution)
    (hdraw : ∀ n, n < graph.getNumberOfVertices →
      0 ≤ timingPicker n ∧ timingPicker n ≤ graph.getCycle - 1) :
    ∀ v, v < graph.getNumberOfVertices →
      0 ≤ constructRandomSolution graph timingPicker fresh v ∧
      constructRandomSolution graph timingPicker fresh v < graph.getCycle := by
  intro v hv
  unfold constructRandomSolution
  rw [foldl_setTiming_range, if_pos hv]
  have := hdraw v hv
  constructor
  · exact this.1
  · have h2 := this.2
    linarith

/-- Witness of C5: on a graph with 2 vertices and `C = 4`, with the draws 3
and 1, both timings of the returned solution lie in `{0, 1, 2, 3}`. -/
theorem constructRandomSolution_in_range_witness :
    (∀ n, n < (plainGraph 2 4).getNumberOfVertices →
      0 ≤ solutionOfList [3, 1] n ∧ solutionOfList [3, 1] n ≤ (plainGraph 2 4).getCycle - 1) ∧
    (∀ v, v < (plainGraph 2 4).getNumberOfVertices →
      0 ≤ constructRandomSolution (plainGraph 2 4) (solutionOfList [3, 1]) (fun _ => 9) v ∧
      constructRandomSolution (plainGraph 2 4) (solutionOfList [3, 1]) (fun _ => 9) v
        < (plainGraph 2 4).getCycle) :=
  ⟨by decide,
   constructRandomSolution_in_range (plainGraph 2 4) (solutionOfList [3, 1]) (fun _ => 9)
     (by decide)⟩

theorem baselineSolution_apply (graph : Graph) (fresh : Solution) (v : Nat)
    (hv : v < graph.getNumberOfVertices) : baselineSolution graph fresh v = 0 := by
  unfold baselineSolution
  rw [foldl_setTiming_range (fun _ => 0), if_pos hv]

theorem pairGraph_validNeighborhoods : pairGraph.ValidNeighborhoods := by
  intro v hv
  have hv2 : v < 2 := hv
  interval_cases v <;> simp [pairGraph]

theorem sentinelGraph_validNeighborhoods : sentinelGraph.ValidNeighborhoods := by
  intro v hv
  have hv2 : v < 2 := hv
  interval_cases v <;> simp [sentinelGraph]

theorem plainDraws_valid (graph : Graph) (hC : graph.getCycle = 4) :
    plainDraws.Valid graph := by
  refine ⟨fun l => List.Perm.refl l, fun n hi => Nat.zero_le hi, fun n i => ?_⟩
  rw [hC]
  simp only [plainDraws]
  constructor
  · exact Int.natCast_nonneg _
  · have h : (n + i) % 4 ≤ 3 := by omega
    have h2 : (((n + i) % 4 : Nat) : Int) ≤ 3 := by exact_mod_cast h
    linarith

theorem pairGraph_penalty_lt (v1 v2 : Nat) (s : Solution) :
    wrapTimeUnit (pairGraph.vertexPenalty v1 s + pairGraph.vertexPenalty v2 s)
      < 2147483647 := by
  show wrapTimeUnit ((0 : Int) + 0) < 2147483647
  decide

/-- Away from the sentinel the constructor keeps the range: on a valid graph
(`C ≥ 1`, every vertex with a non-empty neighbourhood of vertices of the
graph), with `K ≥ 1`, for all outcomes of the randomness source within the
declared ranges, and when the penalty of every pair is below
`numeric_limits<TimeUnit>::max()`, `constructHeuristicSolution` returns a
solution and gives every vertex `v < N` a timing in `[0, C)`. -/
theorem constructHeuristicSolution_in_range (graph : Graph)
    (numberOfTuplesToTestPerIteration : Nat) (maxPenaltyPossible : TimeUnit)
    (draws : HeuristicDraws) (fresh : Solution)
    (hC : 1 ≤ graph.getCycle) (hG : graph.ValidNeighborhoods)
    (hK : 1 ≤ numberOfTuplesToTestPerIteration) (hD : draws.Valid graph)
    (hP : ∀ v1 v2 s,
      wrapTimeUnit (graph.vertexPenalty v1 s + graph.vertexPenalty v2 s)
        < maxPenaltyPossible) :
    ∃ solution,
      constructHeuristicSolution graph numberOfTuplesToTestPerIteration
        maxPenaltyPossible draws fresh = some solution ∧
      ∀ v, v < graph.getNumberOfVertices →
        0 ≤ solution v ∧ solution v < graph.getCycle := by
  have hstack : ∀ v ∈ (draws.shuffle (unvisitedVerticesBuilt graph)).reverse,
      v < graph.getNumberOfVertices := by
    intro v hv
    rw [List.mem_reverse] at hv
    exact mem_unvisitedVerticesBuilt ((hD.1 _).mem_iff.mp hv)
  obtain ⟨st1, e1, h1⟩ := heuristicMainLoop_in_range graph
    numberOfTuplesToTestPerIteration maxPenaltyPossible draws hG hK hD hP _ hstack
    { solution := baselineSolution graph fresh
      bestVertex1Timing := none
      bestVertex2Timing := none
      iterations := 0
      visited := [] }
    (fun v hv => by
      show 0 ≤ baselineSolution graph fresh v ∧ baselineSolution graph fresh v < graph.getCycle
      rw [baselineSolution_apply graph fresh v hv]
      exact ⟨le_refl 0, lt_of_lt_of_le (by decide) hC⟩)
  refine ⟨st1.solution, ?_, h1⟩
  unfold constructHeuristicSolution constructHeuristicRun
  rw [e1]
  rfl

/-- An instance of `constructHeuristicSolution_in_range`: the graph of two
joined vertices with `C = 4` and zero penalties, `K = 1`. -/
theorem constructHeuristicSolution_in_range_witness :
    (1 ≤ pairGraph.getCycle ∧ pairGraph.ValidNeighborhoods ∧ 1 ≤ 1 ∧
      plainDraws.Valid pairGraph ∧
      ∀ v1 v2 s,
        wrapTimeUnit (pairGraph.vertexPenalty v1 s + pairGraph.vertexPenalty v2 s)
          < 2147483647) ∧
    ∃ solution,
      constructHeuristicSolution pairGraph 1 2147483647 plainDraws (fun _ => 9)
        = some solution ∧
      ∀ v, v < pairGraph.getNumberOfVertices →
        0 ≤ solution v ∧ solution v < pairGraph.getCycle :=
  ⟨⟨by decide, pairGraph_validNeighborhoods, le_refl 1, plainDraws_valid pairGraph rfl,
      pairGraph_penalty_lt⟩,
   constructHeuristicSolution_in_range pairGraph 1 2147483647 plainDraws (fun _ => 9)
     (by decide) pairGraph_validNeighborhoods (le_refl 1) (plainDraws_valid pairGraph rfl)
     pairGraph_penalty_lt⟩

/-- C6, evaluated on the code: on `sentinelGraph`, a valid graph with
non-negative penalties, with `K = 1` and draws within their ranges, the only
tested pair has the penalty `numeric_limits<TimeUnit>::max()`, the test
`penalty < bestPenalty` of line 77 fails, and lines 84-85 commit
`bestVertex1Timing` and `bestVertex2Timing` without their having been
written: no solution with defined timings is returned. -/
theorem constructHeuristicSolution_sentinel_evaluation :
    1 ≤ sentinelGraph.getCycle ∧ sentinelGraph.ValidNeighborhoods ∧
    plainDraws.Valid sentinelGraph ∧
    (∀ v s, 0 ≤ sentinelGraph.vertexPenalty v s) ∧
    constructHeuristicSolution sentinelGraph 1 2147483647 plainDraws (fun _ => 9) = none := by
  refine ⟨by decide, sentinelGraph_validNeighborhoods,
    plainDraws_valid sentinelGraph rfl, ?_, rfl⟩
  intro v s
  simp only [sentinelGraph]
  split_ifs <;> decide

/-- C7, evaluated on the code: the working set is built as `N` zeros followed
by the vertices `0, ..., N-1`, so it has `2 * N` entries; on the graph of two
joined vertices the main loop runs 4 times and pops the vertices 1, 0, 0, 0. -/
theorem constructHeuristicSolution_working_set_evaluation :
    (∀ graph : Graph,
      unvisitedVerticesBuilt graph
        = List.replicate graph.getNumberOfVertices 0
            ++ List.range graph.getNumberOfVertices) ∧
    (constructHeuristicRun pairGraph 1 2147483647 plainDraws (fun _ => 9)).map
        (fun st => (st.iterations, st.visited))
      = some (4, [1, 0, 0, 0]) :=
  ⟨unvisitedVerticesBuilt_eq, by decide⟩

/-! ## Lemmas on the local search -/

theorem perturbationLoop_zero (graph : Graph) (vertex : Vertex)
    (timingPicker : Nat → TimeUnit) (solution bestSolution : Solution) :
    perturbationLoop graph 0 vertex timingPicker solution bestSolution
      = { solution := solution
          bestSolution := bestSolution
          perturbations :=
            [{ timing := getTiming solution vertex
               penalty := graph.vertexPenalty vertex bestSolution }]
          rouletteMax := graph.vertexPenalty vertex bestSolution
          iterationHadNoImprovement := true
          bestTiming := getTiming bestSolution vertex
          bestPenalty := graph.vertexPenalty vertex bestSolution } := rfl

theorem perturbationLoop_succ (graph : Graph) (m : Nat) (vertex : Vertex)
    (timingPicker : Nat → TimeUnit) (solution bestSolution : Solution) :
    perturbationLoop graph (m + 1) vertex timingPicker solution bestSolution
      = perturbationStep graph vertex (graph.vertexPenalty vertex solution) timingPicker
          (perturbationLoop graph m vertex timingPicker solution bestSolution) (1 + m) := by
  unfold perturbationLoop
  simp only
  rw [List.range'_1_concat, List.foldl_append]
  rfl

theorem perturbationStep_solution (graph : Graph) (vertex : Vertex) (currentPenalty : TimeUnit)
    (timingPicker : Nat → TimeUnit) (ps : PerturbationState) (i : Nat) :
    (perturbationStep graph vertex currentPenalty timingPicker ps i).solution
      = setTiming ps.solution vertex (timingPicker i) := by
  unfold perturbationStep
  simp only
  split_ifs <;> rfl

theorem perturbationStep_bestSolution (graph : Graph) (vertex : Vertex)
    (currentPenalty : TimeUnit) (timingPicker : Nat → TimeUnit) (ps : PerturbationState)
    (i : Nat) :
    (perturbationStep graph vertex currentPenalty timingPicker ps i).bestSolution
      = setTiming ps.bestSolution vertex (timingPicker i) := by
  unfold perturbationStep
  simp only
  split_ifs <;> rfl

theorem perturbationStep_perturbations (graph : Graph) (vertex : Vertex)
    (currentPenalty : TimeUnit) (timingPicker : Nat → TimeUnit) (ps : PerturbationState)
    (i : Nat) :
    (perturbationStep graph vertex currentPenalty timingPicker ps i).perturbations
      = ps.perturbations ++
          [{ timing := timingPicker i
             penalty := graph.vertexPenalty vertex
               (setTiming ps.solution vertex (timingPicker i)) }] := by
  unfold perturbationStep
  simp only
  split_ifs <;> rfl

theorem perturbationStep_rouletteMax (graph : Graph) (vertex : Vertex)
    (currentPenalty : TimeUnit) (timingPicker : Nat → TimeUnit) (ps : PerturbationState)
    (i : Nat) :
    (perturbationStep graph vertex currentPenalty timingPicker ps i).rouletteMax
      = ps.rouletteMax
          + graph.vertexPenalty vertex (setTiming ps.solution vertex (timingPicker i)) := by
  unfold perturbationStep
  simp only
  split_ifs <;> rfl

theorem perturbationStep_bestTiming (graph : Graph) (vertex : Vertex)
    (currentPenalty : TimeUnit) (timingPicker : Nat → TimeUnit) (ps : PerturbationState)
    (i : Nat) :
    (perturbationStep graph vertex currentPenalty timingPicker ps i).bestTiming
      = if graph.vertexPenalty vertex (setTiming ps.bestSolution vertex (timingPicker i))
            < ps.bestPenalty
        then timingPicker i else ps.bestTiming := by
  unfold perturbationStep
  simp only
  split_ifs <;> rfl

theorem perturbationStep_bestPenalty (graph : Graph) (vertex : Vertex)
    (currentPenalty : TimeUnit) (timingPicker : Nat → TimeUnit) (ps : PerturbationState)
    (i : Nat) :
    (perturbationStep graph vertex currentPenalty timingPicker ps i).bestPenalty
      = if graph.vertexPenalty vertex (setTiming ps.bestSolution vertex (timingPicker i))
            < ps.bestPenalty
        then graph.vertexPenalty vertex (setTiming ps.bestSolution vertex (timingPicker i))
        else ps.bestPenalty := by
  unfold perturbationStep
  simp only
  split_ifs <;> rfl

theorem setTiming_setTiming (s : Solution) (v : Vertex) (t1 t2 : TimeUnit) :
    setTiming (setTiming s v t1) v t2 = setTiming s v t2 := by
  unfold setTiming
  exact Function.update_idem _ _ _

theorem setTiming_self (s : Solution) (v : Vertex) : setTiming s v (s v) = s := by
  unfold setTiming
  exact Function.update_eq_self _ _

/-- The array of perturbations has `numberOfPerturbations + 1` slots. -/
theorem perturbationLoop_length (graph : Graph) (m : Nat) (vertex : Vertex)
    (timingPicker : Nat → TimeUnit) (solution bestSolution : Solution) :
    (perturbationLoop graph m vertex timingPicker solution bestSolution).perturbations.length
      = m + 1 := by
  induction m with
  | zero => rfl
  | succ k ih =>
    rw [perturbationLoop_succ, perturbationStep_perturbations, List.length_append, ih]
    rfl

/-- The value of `rouletteMax` is the sum of the penalties of all the slots. -/
theorem perturbationLoop_rouletteMax (graph : Graph) (m : Nat) (vertex : Vertex)
    (timingPicker : Nat → TimeUnit) (solution bestSolution : Solution) :
    (perturbationLoop graph m vertex timingPicker solution bestSolution).rouletteMax
      = ((perturbationLoop graph m vertex timingPicker solution
            bestSolution).perturbations.map (fun p => p.penalty)).sum := by
  induction m with
  | zero => simp [perturbationLoop_zero]
  | succ k ih =>
    rw [perturbationLoop_succ, perturbationStep_perturbations, perturbationStep_rouletteMax,
      List.map_append, List.sum_append, ih]
    simp

theorem perturbationLoop_rouletteMax_nonneg (graph : Graph) (hP : graph.NonnegPenalties)
    (m : Nat) (vertex : Vertex) (timingPicker : Nat → TimeUnit)
    (solution bestSolution : Solution) :
    0 ≤ (perturbationLoop graph m vertex timingPicker solution bestSolution).rouletteMax := by
  induction m with
  | zero => exact hP _ _
  | succ k ih =>
    rw [perturbationLoop_succ, perturbationStep_rouletteMax]
    exact add_nonneg ih (hP _ _)

/-- In the loop over the perturbations `bestSolution` changes at `vertex`
only, `bestPenalty` is the penalty of `vertex` when `bestTiming` is put into
the initial `bestSolution`, and `bestPenalty` never exceeds its initial
value. -/
theorem perturbationLoop_best (graph : Graph) (m : Nat) (vertex : Vertex)
    (timingPicker : Nat → TimeUnit) (solution bestSolution : Solution) :
    (∃ t, (perturbationLoop graph m vertex timingPicker solution bestSolution).bestSolution
        = setTiming bestSolution vertex t) ∧
    graph.vertexPenalty vertex (setTiming bestSolution vertex
        (perturbationLoop graph m vertex timingPicker solution bestSolution).bestTiming)
      = (perturbationLoop graph m vertex timingPicker solution bestSolution).bestPenalty ∧
    (perturbationLoop graph m vertex timingPicker solution bestSolution).bestPenalty
      ≤ graph.vertexPenalty vertex bestSolution := by
  induction m with
  | zero =>
    rw [perturbationLoop_zero]
    simp only [getTiming]
    rw [setTiming_self]
    exact ⟨⟨bestSolution vertex, (setTiming_self _ _).symm⟩, rfl, le_refl _⟩
  | succ k ih =>
    obtain ⟨⟨t, ht⟩, hpen, hle⟩ := ih
    rw [perturbationLoop_succ, perturbationStep_bestSolution, perturbationStep_bestTiming,
      perturbationStep_bestPenalty, ht, setTiming_setTiming]
    refine ⟨⟨_, rfl⟩, ?_, ?_⟩
    · split_ifs
      · rfl
      · exact hpen
    · split_ifs with hlt
      · exact le_trans (le_of_lt hlt) hle
      · exact hle

/-- The roulette walk stops inside the array when the array is not empty and
the target is at most the accumulated sum plus the penalties still ahead. -/
theorem rouletteWalk_isSome (rouletteTarget : TimeUnit) (l : List Perturbation)
    (roulette : TimeUnit) (hne : l ≠ [])
    (hle : rouletteTarget ≤ roulette + (l.map (fun p => p.penalty)).sum) :
    ∃ timing, rouletteWalk rouletteTarget l roulette = some timing := by
  induction l generalizing roulette with
  | nil => exact absurd rfl hne
  | cons p rest ih =>
    unfold rouletteWalk
    by_cases h : rouletteTarget ≤ roulette + p.penalty
    · exact ⟨p.timing, if_pos h⟩
    · rw [if_neg h]
      have hsum : rouletteTarget ≤ roulette + p.penalty
          + (rest.map (fun p => p.penalty)).sum := by
        simp only [List.map_cons, List.sum_cons] at hle
        linarith
      apply ih
      · intro hrest
        subst hrest
        simp only [List.map_nil, List.sum_nil, add_zero] at hsum
        exact h hsum
      · exact hsum

/-- With non-negative penalties and outcomes within the library contracts,
an iteration of the local search has a result. -/
theorem localSearchIteration_isSome (graph : Graph) (M : Nat)
    (outcomes : LocalSearchOutcomes) (hP : graph.NonnegPenalties)
    (hO : outcomes.Valid graph) (st : LocalSearchState) :
    ∃ st1, localSearchIteration graph M outcomes st = some st1 := by
  obtain ⟨_, _, hroul, hsort⟩ := hO
  have hmax := perturbationLoop_rouletteMax_nonneg graph hP M
    (outcomes.vertexPicker st.metrics.numberOfIterations)
    (outcomes.timingPicker st.metrics.numberOfIterations) st.solution st.bestSolution
  have hperm := (hsort (perturbationLoop graph M
    (outcomes.vertexPicker st.metrics.numberOfIterations)
    (outcomes.timingPicker st.metrics.numberOfIterations) st.solution
    st.bestSolution).perturbations).1
  have htarget := (hroul st.metrics.numberOfIterations _ hmax).2
  have hlen := perturbationLoop_length graph M
    (outcomes.vertexPicker st.metrics.numberOfIterations)
    (outcomes.timingPicker st.metrics.numberOfIterations) st.solution st.bestSolution
  have hne : outcomes.sort (perturbationLoop graph M
      (outcomes.vertexPicker st.metrics.numberOfIterations)
      (outcomes.timingPicker st.metrics.numberOfIterations) st.solution
      st.bestSolution).perturbations ≠ [] := by
    intro h
    have := hperm.length_eq
    rw [h, hlen] at this
    simp at this
  have hsum : ((outcomes.sort (perturbationLoop graph M
      (outcomes.vertexPicker st.metrics.numberOfIterations)
      (outcomes.timingPicker st.metrics.numberOfIterations) st.solution
      st.bestSolution).perturbations).map (fun p => p.penalty)).sum
      = (perturbationLoop graph M
      (outcomes.vertexPicker st.metrics.numberOfIterations)
      (outcomes.timingPicker st.metrics.numberOfIterations) st.solution
      st.bestSolution).rouletteMax := by
    rw [perturbationLoop_rouletteMax]
    exact (hperm.map _).sum_eq
  have hle : outcomes.roulettePicker st.metrics.numberOfIterations
      (perturbationLoop graph M
        (outcomes.vertexPicker st.metrics.numberOfIterations)
        (outcomes.timingPicker st.metrics.numberOfIterations) st.solution
        st.bestSolution).rouletteMax
      ≤ 0 + ((outcomes.sort (perturbationLoop graph M
        (outcomes.vertexPicker st.metrics.numberOfIterations)
        (outcomes.timingPicker st.metrics.numberOfIterations) st.solution
        st.bestSolution).perturbations).map (fun p => p.penalty)).sum := by
    rw [hsum, zero_add]
    exact htarget
  obtain ⟨timing, htim⟩ := rouletteWalk_isSome _ _ 0 hne hle
  unfold localSearchIteration
  simp only
  rw [htim]
  exact ⟨_, rfl⟩

/-- What an iteration of the local search does to `bestSolution` and to the
counter of iterations. -/
theorem localSearchIteration_best (graph : Graph) (M : Nat)
    (outcomes : LocalSearchOutcomes) (st st1 : LocalSearchState)
    (h : localSearchIteration graph M outcomes st = some st1) :
    (∃ t, st1.bestSolution
        = setTiming st.bestSolution (outcomes.vertexPicker st.metrics.numberOfIterations) t) ∧
    graph.vertexPenalty (outcomes.vertexPicker st.metrics.numberOfIterations) st1.bestSolution
      ≤ graph.vertexPenalty (outcomes.vertexPicker st.metrics.numberOfIterations)
          st.bestSolution ∧
    st1.metrics.numberOfIterations = st.metrics.numberOfIterations + 1 := by
  obtain ⟨⟨t, ht⟩, hpen, hle⟩ := perturbationLoop_best graph M
    (outcomes.vertexPicker st.metrics.numberOfIterations)
    (outcomes.timingPicker st.metrics.numberOfIterations) st.solution st.bestSolution
  have key1 : setTiming
      (perturbationLoop graph M (outcomes.vertexPicker st.metrics.numberOfIterations)
        (outcomes.timingPicker st.metrics.numberOfIterations) st.solution
        st.bestSolution).bestSolution
      (outcomes.vertexPicker st.metrics.numberOfIterations)
      (perturbationLoop graph M (outcomes.vertexPicker st.metrics.numberOfIterations)
        (outcomes.timingPicker st.metrics.numberOfIterations) st.solution
        st.bestSolution).bestTiming
      = setTiming st.bestSolution (outcomes.vertexPicker st.metrics.numberOfIterations)
          (perturbationLoop graph M (outcomes.vertexPicker st.metrics.numberOfIterations)
            (outcomes.timingPicker st.metrics.numberOfIterations) st.solution
            st.bestSolution).bestTiming := by
    rw [ht, setTiming_setTiming]
  have key2 : graph.vertexPenalty (outcomes.vertexPicker st.metrics.numberOfIterations)
      (setTiming
        (perturbationLoop graph M (outcomes.vertexPicker st.metrics.numberOfIterations)
          (outcomes.timingPicker st.metrics.numberOfIterations) st.solution
          st.bestSolution).bestSolution
        (outcomes.vertexPicker st.metrics.numberOfIterations)
        (perturbationLoop graph M (outcomes.vertexPicker st.metrics.numberOfIterations)
          (outcomes.timingPicker st.metrics.numberOfIterations) st.solution
          st.bestSolution).bestTiming)
      ≤ graph.vertexPenalty (outcomes.vertexPicker st.metrics.numberOfIterations)
          st.bestSolution := by
    rw [key1, hpen]
    exact hle
  unfold localSearchIteration at h
  simp only at h
  split at h
  · exact absurd h (by simp)
  · injection h with h
    subst h
    exact ⟨⟨_, key1⟩, key2, rfl⟩


theorem sortByPenalty_valid (l : List Perturbation) :
    (sortByPenalty l).Perm l ∧
    (sortByPenalty l).Pairwise (fun a b => a.penalty ≤ b.penalty) := by
  haveI : IsTotal Perturbation (fun a b => a.penalty ≤ b.penalty) :=
    ⟨fun a b => le_total a.penalty b.penalty⟩
  haveI : IsTrans Perturbation (fun a b => a.penalty ≤ b.penalty) :=
    ⟨fun _ _ _ hab hbc => le_trans hab hbc⟩
  exact ⟨List.perm_insertionSort _ l, List.sorted_insertionSort _ l⟩

theorem conflict_nonneg (x y : Int) : 0 ≤ conflict x y := by
  unfold conflict
  split_ifs <;> decide

theorem conflict_comm (x y : Int) : conflict x y = conflict y x := by
  unfold conflict
  by_cases h : x = y
  · rw [if_pos h, if_pos h.symm]
  · rw [if_neg h, if_neg (fun h2 => h h2.symm)]

theorem cycle3Graph_nonneg : cycle3Graph.NonnegPenalties := by
  intro v s
  exact add_nonneg (conflict_nonneg _ _) (conflict_nonneg _ _)

theorem cycle3Outcomes_valid : cycle3Outcomes.Valid cycle3Graph := by
  refine ⟨fun n => Nat.mod_lt n (by decide), fun n i => ?_, fun n hi h => ⟨le_refl 0, h⟩,
    sortByPenalty_valid⟩
  show (0 : Int) ≤ ((n + i) % 6 : Nat) ∧ (((n + i) % 6 : Nat) : Int) ≤ 6 - 1
  have h : (n + i) % 6 ≤ 5 := by omega
  have h2 : (((n + i) % 6 : Nat) : Int) ≤ 5 := by exact_mod_cast h
  exact ⟨Int.natCast_nonneg _, by linarith⟩

theorem cycle3Graph_totalPenalty (s : Solution) :
    totalPenalty cycle3Graph s
      = 2 * (conflict (s 0) (s 1) + conflict (s 1) (s 2) + conflict (s 0) (s 2)) := by
  unfold totalPenalty
  show ∑ v ∈ Finset.range 3,
    (conflict (s v) (s ((v + 1) % 3)) + conflict (s v) (s ((v + 2) % 3))) = _
  simp only [Finset.sum_range_succ, Finset.sum_range_zero]
  norm_num
  rw [conflict_comm (s 1) (s 0), conflict_comm (s 2) (s 0), conflict_comm (s 2) (s 1)]
  ring

theorem cycle3Graph_compatible : cycle3Graph.PenaltyCompatible := by
  intro v hv s t h
  have hv3 : v < 3 := hv
  rw [cycle3Graph_totalPenalty, cycle3Graph_totalPenalty]
  have h' : conflict (setTiming s v t v) (setTiming s v t ((v + 1) % 3))
      + conflict (setTiming s v t v) (setTiming s v t ((v + 2) % 3))
      ≤ conflict (s v) (s ((v + 1) % 3)) + conflict (s v) (s ((v + 2) % 3)) := h
  have c10 := conflict_comm (s 1) (s 0)
  have c20 := conflict_comm (s 2) (s 0)
  have c21 := conflict_comm (s 2) (s 1)
  have ct0 := conflict_comm t (s 0)
  have ct1 := conflict_comm t (s 1)
  have ct2 := conflict_comm t (s 2)
  interval_cases v
  · simp [setTiming, Function.update] at h' ⊢
    linarith
  · simp [setTiming, Function.update] at h' ⊢
    linarith
  · simp [setTiming, Function.update] at h' ⊢
    linarith

theorem conflictGraph_nonneg : conflictGraph.NonnegPenalties := by
  intro v s
  simp only [conflictGraph]
  split_ifs <;> decide

theorem firstOutcomes_valid : firstOutcomes.Valid conflictGraph := by
  refine ⟨fun _ => ?_, fun _ _ => ?_, fun _ _ h => ⟨le_refl 0, h⟩, sortByPenalty_valid⟩
  · show 0 < 2
    decide
  · show (0 : Int) ≤ 1 ∧ (1 : Int) ≤ 2 - 1
    decide

/-- With the criterion `numberOfIterations k` and enough fuel, the main loop
is the loop body executed as many times as the counter is short of `k`. -/
theorem localSearchLoop_eq_iterations (graph : Graph) (M k : Nat)
    (outcomes : LocalSearchOutcomes) (j : Nat) :
    ∀ (fuel : Nat) (st : LocalSearchState),
      st.metrics.numberOfIterations + j = k → j < fuel →
      localSearchLoop graph M (stop_criteria.numberOfIterations k) outcomes fuel st
        = localSearchIterations graph M outcomes j st := by
  induction j with
  | zero =>
    intro fuel st hk hfuel
    obtain ⟨f, rfl⟩ : ∃ f, fuel = f + 1 := ⟨fuel - 1, by omega⟩
    have hstop : stop_criteria.numberOfIterations k st.metrics = false := by
      simp only [stop_criteria.numberOfIterations, decide_eq_false_iff_not]
      omega
    simp only [localSearchLoop, hstop, localSearchIterations]
    rfl
  | succ i ih =>
    intro fuel st hk hfuel
    obtain ⟨f, rfl⟩ : ∃ f, fuel = f + 1 := ⟨fuel - 1, by omega⟩
    have hstop : stop_criteria.numberOfIterations k st.metrics = true := by
      simp only [stop_criteria.numberOfIterations, decide_eq_true_eq]
      omega
    simp only [localSearchLoop, hstop, localSearchIterations, if_true]
    cases h : localSearchIteration graph M outcomes st with
    | none => rfl
    | some st1 =>
      have hn := (localSearchIteration_best graph M outcomes st st1 h).2.2
      exact ih f st1 (by omega) (by omega)

/-- With non-negative penalties and outcomes within the library contracts,
`j` executions of the loop body have a result, and the counter of iterations
has been raised by `j`. -/
theorem localSearchIterations_isSome (graph : Graph) (M : Nat)
    (outcomes : LocalSearchOutcomes) (hP : graph.NonnegPenalties)
    (hO : outcomes.Valid graph) (j : Nat) :
    ∀ st : LocalSearchState, ∃ st1,
      localSearchIterations graph M outcomes j st = some st1 ∧
      st1.metrics.numberOfIterations = st.metrics.numberOfIterations + j := by
  induction j with
  | zero => exact fun st => ⟨st, rfl, rfl⟩
  | succ i ih =>
    intro st
    obtain ⟨st1, h1⟩ := localSearchIteration_isSome graph M outcomes hP hO st
    have hn := (localSearchIteration_best graph M outcomes st st1 h1).2.2
    obtain ⟨st2, h2, hn2⟩ := ih st1
    refine ⟨st2, ?_, by omega⟩
    simp only [localSearchIterations, h1]
    exact h2

/-- On a graph with a compatible penalty, executions of the loop body do not
raise the total penalty of `bestSolution`. -/
theorem localSearchIterations_totalPenalty (graph : Graph) (M : Nat)
    (outcomes : LocalSearchOutcomes) (hH : graph.PenaltyCompatible)
    (hO : outcomes.Valid graph) (j : Nat) :
    ∀ st st1 : LocalSearchState,
      localSearchIterations graph M outcomes j st = some st1 →
      totalPenalty graph st1.bestSolution ≤ totalPenalty graph st.bestSolution := by
  induction j with
  | zero =>
    intro st st1 h
    simp only [localSearchIterations, Option.some.injEq] at h
    subst h
    exact le_refl _
  | succ i ih =>
    intro st st2 h
    simp only [localSearchIterations] at h
    cases h1 : localSearchIteration graph M outcomes st with
    | none => rw [h1] at h; exact absurd h (by simp)
    | some st1 =>
      rw [h1] at h
      obtain ⟨⟨t, ht⟩, hle, _⟩ := localSearchIteration_best graph M outcomes st st1 h1
      have hstep : totalPenalty graph st1.bestSolution
          ≤ totalPenalty graph st.bestSolution := by
        rw [ht] at hle ⊢
        exact hH _ (hO.1 _) _ _ hle
      exact le_trans (ih st1 st2 h) hstep


/-! ## Theorems on the local search -/

/-- C8: with non-negative penalties and every library outcome within its
contract, `localSearchHeuristic` driven by `numberOfIterations(k)` ends (any
fuel above `k` suffices), its final state is the state after exactly `k`
executions of the loop body, the counter of iterations is `k` on return, and
after `j ≤ k` executions it is `j`, so it never exceeds `k`. -/
theorem localSearchHeuristic_runs_exactly_k_iterations (graph : Graph)
    (initialSolution : Solution) (numberOfPerturbations k : Nat)
    (outcomes : LocalSearchOutcomes) (fuel : Nat)
    (hP : graph.NonnegPenalties) (hO : outcomes.Valid graph) (hfuel : k < fuel) :
    ∃ st,
      localSearchRun graph initialSolution numberOfPerturbations
        (stop_criteria.numberOfIterations k) outcomes fuel = some st ∧
      localSearchHeuristic graph initialSolution numberOfPerturbations
        (stop_criteria.numberOfIterations k) outcomes fuel = some st.bestSolution ∧
      st.metrics.numberOfIterations = k ∧
      localSearchIterations graph numberOfPerturbations outcomes k
        (localSearchStart initialSolution) = some st ∧
      ∀ j, j ≤ k → ∃ sj,
        localSearchIterations graph numberOfPerturbations outcomes j
          (localSearchStart initialSolution) = some sj ∧
        sj.metrics.numberOfIterations = j := by
  obtain ⟨st, hst, hn⟩ := localSearchIterations_isSome graph numberOfPerturbations
    outcomes hP hO k (localSearchStart initialSolution)
  have hrun : localSearchRun graph initialSolution numberOfPerturbations
      (stop_criteria.numberOfIterations k) outcomes fuel = some st := by
    unfold localSearchRun
    rw [localSearchLoop_eq_iterations graph numberOfPerturbations k outcomes k fuel
      (localSearchStart initialSolution) (by simp [localSearchStart]) hfuel]
    exact hst
  refine ⟨st, hrun, ?_, ?_, hst, ?_⟩
  · unfold localSearchHeuristic
    rw [hrun]
    rfl
  · rw [hn]
    simp [localSearchStart]
  · intro j _
    obtain ⟨sj, hsj, hnj⟩ := localSearchIterations_isSome graph numberOfPerturbations
      outcomes hP hO j (localSearchStart initialSolution)
    exact ⟨sj, hsj, by rw [hnj]; simp [localSearchStart]⟩

/-- Witness of C8: the 3-cycle with `C = 6`, all-zero timings, one
perturbation per iteration and `k = 100`. -/
theorem localSearchHeuristic_runs_exactly_k_iterations_witness :
    (cycle3Graph.NonnegPenalties ∧ cycle3Outcomes.Valid cycle3Graph ∧ 100 < 101) ∧
    ∃ st,
      localSearchRun cycle3Graph (fun _ => 0) 1
        (stop_criteria.numberOfIterations 100) cycle3Outcomes 101 = some st ∧
      localSearchHeuristic cycle3Graph (fun _ => 0) 1
        (stop_criteria.numberOfIterations 100) cycle3Outcomes 101 = some st.bestSolution ∧
      st.metrics.numberOfIterations = 100 ∧
      localSearchIterations cycle3Graph 1 cycle3Outcomes 100
        (localSearchStart (fun _ => 0)) = some st ∧
      ∀ j, j ≤ 100 → ∃ sj,
        localSearchIterations cycle3Graph 1 cycle3Outcomes j
          (localSearchStart (fun _ => 0)) = some sj ∧
        sj.metrics.numberOfIterations = j :=
  ⟨⟨cycle3Graph_nonneg, cycle3Outcomes_valid, by decide⟩,
   localSearchHeuristic_runs_exactly_k_iterations cycle3Graph (fun _ => 0) 1 100
     cycle3Outcomes 101 cycle3Graph_nonneg cycle3Outcomes_valid (by decide)⟩

/-- C9: in an iteration of `localSearchHeuristic`, for the vertex picked in
that iteration, the penalty of the vertex under `bestSolution` after the
iteration is at most its penalty under `bestSolution` before the iteration,
whatever timings are sampled. -/
theorem localSearchIteration_best_penalty_monotone (graph : Graph)
    (numberOfPerturbations : Nat) (outcomes : LocalSearchOutcomes)
    (st st1 : LocalSearchState)
    (h : localSearchIteration graph numberOfPerturbations outcomes st = some st1) :
    graph.vertexPenalty (outcomes.vertexPicker st.metrics.numberOfIterations)
        st1.bestSolution
      ≤ graph.vertexPenalty (outcomes.vertexPicker st.metrics.numberOfIterations)
          st.bestSolution :=
  (localSearchIteration_best graph numberOfPerturbations outcomes st st1 h).2.1

/-- Witness of C9: the first iteration on the 3-cycle from all-zero timings,
with two perturbations. -/
theorem localSearchIteration_best_penalty_monotone_witness :
    ∃ st1,
      localSearchIteration cycle3Graph 2 cycle3Outcomes (localSearchStart (fun _ => 0))
        = some st1 ∧
      cycle3Graph.vertexPenalty
          (cycle3Outcomes.vertexPicker
            (localSearchStart (fun _ => 0)).metrics.numberOfIterations)
          st1.bestSolution
        ≤ cycle3Graph.vertexPenalty
            (cycle3Outcomes.vertexPicker
              (localSearchStart (fun _ => 0)).metrics.numberOfIterations)
            (localSearchStart (fun _ => 0)).bestSolution := by
  obtain ⟨st1, h⟩ := localSearchIteration_isSome cycle3Graph 2 cycle3Outcomes
    cycle3Graph_nonneg cycle3Outcomes_valid (localSearchStart (fun _ => 0))
  exact ⟨st1, h,
    localSearchIteration_best_penalty_monotone cycle3Graph 2 cycle3Outcomes _ st1 h⟩

/-- C10, as amended: on a graph with non-negative penalties whose penalty is
compatible (changing the timing of one vertex without raising its own penalty
does not raise the total penalty), with every library outcome within its
contract, `localSearchHeuristic` driven by `numberOfIterations(k)` returns a
solution whose total penalty is at most the total penalty of the initial
solution. -/
theorem localSearchHeuristic_total_penalty_not_worse (graph : Graph)
    (initialSolution : Solution) (numberOfPerturbations k : Nat)
    (outcomes : LocalSearchOutcomes) (fuel : Nat)
    (hP : graph.NonnegPenalties) (hH : graph.PenaltyCompatible)
    (hO : outcomes.Valid graph) (hfuel : k < fuel) :
    ∃ result,
      localSearchHeuristic graph initialSolution numberOfPerturbations
        (stop_criteria.numberOfIterations k) outcomes fuel = some result ∧
      totalPenalty graph result ≤ totalPenalty graph initialSolution := by
  obtain ⟨st, hst, _⟩ := localSearchIterations_isSome graph numberOfPerturbations
    outcomes hP hO k (localSearchStart initialSolution)
  refine ⟨st.bestSolution, ?_, ?_⟩
  · unfold localSearchHeuristic localSearchRun
    rw [localSearchLoop_eq_iterations graph numberOfPerturbations k outcomes k fuel
      (localSearchStart initialSolution) (by simp [localSearchStart]) hfuel, hst]
    rfl
  · exact localSearchIterations_totalPenalty graph numberOfPerturbations outcomes hH hO k
      (localSearchStart initialSolution) st hst

/-- Witness of C10 as amended: the 3-cycle 0-1-2-0 with `C = 6`, all-zero
initial timings and `k = 100`. -/
theorem localSearchHeuristic_total_penalty_not_worse_witness :
    (cycle3Graph.NonnegPenalties ∧ cycle3Graph.PenaltyCompatible ∧
      cycle3Outcomes.Valid cycle3Graph ∧ 100 < 101) ∧
    ∃ result,
      localSearchHeuristic cycle3Graph (fun _ => 0) 1
        (stop_criteria.numberOfIterations 100) cycle3Outcomes 101 = some result ∧
      totalPenalty cycle3Graph result ≤ totalPenalty cycle3Graph (fun _ => 0) :=
  ⟨⟨cycle3Graph_nonneg, cycle3Graph_compatible, cycle3Outcomes_valid, by decide⟩,
   localSearchHeuristic_total_penalty_not_worse cycle3Graph (fun _ => 0) 1 100
     cycle3Outcomes 101 cycle3Graph_nonneg cycle3Graph_compatible cycle3Outcomes_valid
     (by decide)⟩

/-- Counterexample to C10 as stated: on `conflictGraph` (non-negative
penalties), from all-zero timings with `M = 1` and `k = 1`, all outcomes
within their contracts, the run picks vertex 0 and samples the timing 1; the
penalty of vertex 0 drops from 1 to 0, the timing is recorded in
`bestSolution`, and the total penalty of the returned solution is 2, above
the total penalty 1 of the initial solution. -/
theorem localSearchHeuristic_total_penalty_counterexample :
    conflictGraph.NonnegPenalties ∧ firstOutcomes.Valid conflictGraph ∧
    totalPenalty conflictGraph (fun _ => 0) = 1 ∧
    (localSearchHeuristic conflictGraph (fun _ => 0) 1
        (stop_criteria.numberOfIterations 1) firstOutcomes 2).map
      (totalPenalty conflictGraph) = some 2 ∧
    ¬ ∃ result,
      localSearchHeuristic conflictGraph (fun _ => 0) 1
        (stop_criteria.numberOfIterations 1) firstOutcomes 2 = some result ∧
      totalPenalty conflictGraph result ≤ totalPenalty conflictGraph (fun _ => 0) := by
  have h1 : totalPenalty conflictGraph (fun _ => 0) = 1 := by decide
  have h2 : (localSearchHeuristic conflictGraph (fun _ => 0) 1
      (stop_criteria.numberOfIterations 1) firstOutcomes 2).map
      (totalPenalty conflictGraph) = some 2 := by decide
  refine ⟨conflictGraph_nonneg, firstOutcomes_valid, h1, h2, ?_⟩
  rintro ⟨result, hres, hle⟩
  rw [hres, Option.map_some', Option.some.injEq] at h2
  rw [h1, h2] at hle
  exact absurd hle (by decide)


/-! ## Further lemmas on the local search -/

theorem perturbationStep_iterationHadNoImprovement (graph : Graph) (vertex : Vertex)
    (currentPenalty : TimeUnit) (timingPicker : Nat → TimeUnit) (ps : PerturbationState)
    (i : Nat) :
    (perturbationStep graph vertex currentPenalty timingPicker ps i).iterationHadNoImprovement
      = if graph.vertexPenalty vertex (setTiming ps.solution vertex (timingPicker i))
            < currentPenalty
        then false else ps.iterationHadNoImprovement := by
  unfold perturbationStep
  simp only
  split_ifs <;> rfl

/-- In the loop over the perturbations `solution` changes at `vertex` only. -/
theorem perturbationLoop_solution (graph : Graph) (m : Nat) (vertex : Vertex)
    (timingPicker : Nat → TimeUnit) (solution bestSolution : Solution) :
    ∃ t, (perturbationLoop graph m vertex timingPicker solution bestSolution).solution
      = setTiming solution vertex t := by
  induction m with
  | zero => exact ⟨solution vertex, (setTiming_self _ _).symm⟩
  | succ k ih =>
    obtain ⟨t, ht⟩ := ih
    rw [perturbationLoop_succ, perturbationStep_solution, ht, setTiming_setTiming]
    exact ⟨_, rfl⟩

/-- The flag `iterationHadNoImprovement` stays set exactly when no sampled
timing gives `vertex` a penalty under `solution` below `currentPenalty`. -/
theorem perturbationLoop_iterationHadNoImprovement (graph : Graph) (m : Nat)
    (vertex : Vertex) (timingPicker : Nat → TimeUnit) (solution bestSolution : Solution) :
    (perturbationLoop graph m vertex timingPicker solution
        bestSolution).iterationHadNoImprovement = true
      ↔ ∀ i, 1 ≤ i → i ≤ m →
          ¬ graph.vertexPenalty vertex (setTiming solution vertex (timingPicker i))
              < graph.vertexPenalty vertex solution := by
  induction m with
  | zero =>
    rw [perturbationLoop_zero]
    simp only [true_iff]
    intro i h1 h0
    omega
  | succ k ih =>
    obtain ⟨t, ht⟩ := perturbationLoop_solution graph k vertex timingPicker solution
      bestSolution
    rw [perturbationLoop_succ, perturbationStep_iterationHadNoImprovement, ht,
      setTiming_setTiming]
    by_cases hlt : graph.vertexPenalty vertex (setTiming solution vertex (timingPicker (1 + k)))
        < graph.vertexPenalty vertex solution
    · rw [if_pos hlt]
      constructor
      · intro h
        exact absurd h (by simp)
      · intro h
        exact absurd hlt (h (1 + k) (by omega) (by omega))
    · rw [if_neg hlt, ih]
      constructor
      · intro h i h1 hi
        by_cases hik : i = 1 + k
        · rw [hik]
          exact hlt
        · exact h i h1 (by omega)
      · intro h i h1 hi
        exact h i h1 (by omega)

/-- What an iteration of the local search that has a result does to the
state: the roulette walk stops at some timing, which is written to
`solution` at the picked vertex; `bestSolution` gets the best timing; the
counters are updated from the flag `iterationHadNoImprovement`. -/
theorem localSearchIteration_eq_some (graph : Graph) (M : Nat)
    (outcomes : LocalSearchOutcomes) (st st1 : LocalSearchState)
    (h : localSearchIteration graph M outcomes st = some st1) :
    ∃ timing,
      rouletteWalk
        (outcomes.roulettePicker st.metrics.numberOfIterations
          (iterationPerturbations graph M outcomes st).rouletteMax)
        (outcomes.sort (iterationPerturbations graph M outcomes st).perturbations) 0
        = some timing ∧
      st1.solution
        = setTiming (iterationPerturbations graph M outcomes st).solution
            (outcomes.vertexPicker st.metrics.numberOfIterations) timing ∧
      st1.bestSolution
        = setTiming (iterationPerturbations graph M outcomes st).bestSolution
            (outcomes.vertexPicker st.metrics.numberOfIterations)
            (iterationPerturbations graph M outcomes st).bestTiming ∧
      st1.metrics
        = { numberOfIterations := st.metrics.numberOfIterations + 1
            numberOfIterationsWithoutImprovement :=
              if (iterationPerturbations graph M outcomes st).iterationHadNoImprovement then
                st.metrics.numberOfIterationsWithoutImprovement + 1
              else 0 } := by
  unfold localSearchIteration at h
  simp only at h
  split at h
  · exact absurd h (by simp)
  · rename_i timing hwalk
    injection h with h
    subst h
    exact ⟨timing, hwalk, rfl, rfl, rfl⟩

theorem resetOutcomes_valid : resetOutcomes.Valid cycle3Graph := by
  refine ⟨fun n => Nat.mod_lt n (by decide), fun n i => ?_, fun n hi h => ⟨le_refl 0, h⟩,
    sortByPenalty_valid⟩
  show (0 : Int) ≤ (if n = 0 then 0 else 1) ∧ (if n = 0 then (0 : Int) else 1) ≤ 6 - 1
  split_ifs <;> decide

/-! ## Theorems on the counters and the stop criteria -/

/-- C11, as amended: in every iteration of `localSearchHeuristic` the counter
of iterations does not decrease, and the counter of iterations without
improvement is afterwards either one more than before or 0; both counters
are 0 at the start of a run. -/
theorem localSearchMetrics_evolution (graph : Graph) (numberOfPerturbations : Nat)
    (outcomes : LocalSearchOutcomes) (st st1 : LocalSearchState)
    (h : localSearchIteration graph numberOfPerturbations outcomes st = some st1) :
    st.metrics.numberOfIterations ≤ st1.metrics.numberOfIterations ∧
    (st1.metrics.numberOfIterationsWithoutImprovement
        = st.metrics.numberOfIterationsWithoutImprovement + 1 ∨
      st1.metrics.numberOfIterationsWithoutImprovement = 0) ∧
    (∀ initialSolution : Solution,
      (localSearchStart initialSolution).metrics.numberOfIterations = 0 ∧
      (localSearchStart initialSolution).metrics.numberOfIterationsWithoutImprovement = 0) := by
  obtain ⟨_, _, _, _, hm⟩ := localSearchIteration_eq_some graph numberOfPerturbations
    outcomes st st1 h
  rw [hm]
  refine ⟨Nat.le_succ _, ?_, fun _ => ⟨rfl, rfl⟩⟩
  show (if _ then _ else _) = _ ∨ (if _ then _ else _) = _
  split_ifs
  · exact Or.inl rfl
  · exact Or.inr rfl

/-- Witness of C11 as amended: the first iteration on the 3-cycle from
all-zero timings. -/
theorem localSearchMetrics_evolution_witness :
    ∃ st1,
      localSearchIteration cycle3Graph 1 cycle3Outcomes (localSearchStart (fun _ => 0))
        = some st1 ∧
      ((localSearchStart (fun _ => 0)).metrics.numberOfIterations
          ≤ st1.metrics.numberOfIterations ∧
        (st1.metrics.numberOfIterationsWithoutImprovement
            = (localSearchStart (fun _ => 0)).metrics.numberOfIterationsWithoutImprovement + 1 ∨
          st1.metrics.numberOfIterationsWithoutImprovement = 0) ∧
        (∀ initialSolution : Solution,
          (localSearchStart initialSolution).metrics.numberOfIterations = 0 ∧
          (localSearchStart initialSolution).metrics.numberOfIterationsWithoutImprovement
            = 0)) := by
  obtain ⟨st1, h⟩ := localSearchIteration_isSome cycle3Graph 1 cycle3Outcomes
    cycle3Graph_nonneg cycle3Outcomes_valid (localSearchStart (fun _ => 0))
  exact ⟨st1, h, localSearchMetrics_evolution cycle3Graph 1 cycle3Outcomes _ st1 h⟩

/-- Counterexample to C11 as stated: on the 3-cycle from all-zero timings,
with one perturbation per iteration and outcomes within their contracts, the
counter of iterations without improvement is 1 after the first iteration and
0 after the second one: it decreases within the run. -/
theorem localSearchMetrics_reset_counterexample :
    cycle3Graph.NonnegPenalties ∧ resetOutcomes.Valid cycle3Graph ∧
    (localSearchIterations cycle3Graph 1 resetOutcomes 1
        (localSearchStart (fun _ => 0))).map (fun st => st.metrics)
      = some { numberOfIterations := 1, numberOfIterationsWithoutImprovement := 1 } ∧
    (localSearchIterations cycle3Graph 1 resetOutcomes 2
        (localSearchStart (fun _ => 0))).map (fun st => st.metrics)
      = some { numberOfIterations := 2, numberOfIterationsWithoutImprovement := 0 } :=
  ⟨cycle3Graph_nonneg, resetOutcomes_valid, by decide, by decide⟩

/-- C13: the predicate of `numberOfIterationsWithoutImprovement(limit)` says
"continue" exactly when the counter of iterations without improvement is
below the limit, and its value does not depend on the counter of
iterations. -/
theorem numberOfIterationsWithoutImprovement_spec :
    (∀ (limit : Nat) (m : LocalSearchMetrics),
      stop_criteria.numberOfIterationsWithoutImprovement limit m = true
        ↔ m.numberOfIterationsWithoutImprovement < limit) ∧
    (∀ (limit iterations1 iterations2 withoutImprovement : Nat),
      stop_criteria.numberOfIterationsWithoutImprovement limit
          { numberOfIterations := iterations1
            numberOfIterationsWithoutImprovement := withoutImprovement }
        = stop_criteria.numberOfIterationsWithoutImprovement limit
            { numberOfIterations := iterations2
              numberOfIterationsWithoutImprovement := withoutImprovement }) := by
  constructor
  · intro limit m
    simp [stop_criteria.numberOfIterationsWithoutImprovement]
  · intro limit i1 i2 w
    rfl

/-- C17: after an iteration of `localSearchHeuristic` the counter of
iterations is one more than before; the counter of iterations without
improvement is 0 when one of the `M` sampled timings gives the picked vertex
a penalty under `solution` below its penalty at the start of the iteration,
and one more than before otherwise; a run of the iteration from the same
state with the same vertex pick and timing draws and any other roulette and
sort outcomes leaves the same counters. -/
theorem localSearchIteration_counters (graph : Graph) (numberOfPerturbations : Nat)
    (outcomes : LocalSearchOutcomes) (st st1 : LocalSearchState)
    (h : localSearchIteration graph numberOfPerturbations outcomes st = some st1) :
    st1.metrics.numberOfIterations = st.metrics.numberOfIterations + 1 ∧
    ((∃ i, 1 ≤ i ∧ i ≤ numberOfPerturbations ∧
        graph.vertexPenalty (outcomes.vertexPicker st.metrics.numberOfIterations)
            (setTiming st.solution (outcomes.vertexPicker st.metrics.numberOfIterations)
              (outcomes.timingPicker st.metrics.numberOfIterations i))
          < graph.vertexPenalty (outcomes.vertexPicker st.metrics.numberOfIterations)
              st.solution) →
      st1.metrics.numberOfIterationsWithoutImprovement = 0) ∧
    ((¬ ∃ i, 1 ≤ i ∧ i ≤ numberOfPerturbations ∧
        graph.vertexPenalty (outcomes.vertexPicker st.metrics.numberOfIterations)
            (setTiming st.solution (outcomes.vertexPicker st.metrics.numberOfIterations)
              (outcomes.timingPicker st.metrics.numberOfIterations i))
          < graph.vertexPenalty (outcomes.vertexPicker st.metrics.numberOfIterations)
              st.solution) →
      st1.metrics.numberOfIterationsWithoutImprovement
        = st.metrics.numberOfIterationsWithoutImprovement + 1) ∧
    (∀ (outcomes2 : LocalSearchOutcomes) (st2 : LocalSearchState),
      outcomes2.vertexPicker = outcomes.vertexPicker →
      outcomes2.timingPicker = outcomes.timingPicker →
      localSearchIteration graph numberOfPerturbations outcomes2 st = some st2 →
      st2.metrics = st1.metrics) := by
  obtain ⟨_, _, _, _, hm⟩ := localSearchIteration_eq_some graph numberOfPerturbations
    outcomes st st1 h
  have hflag := perturbationLoop_iterationHadNoImprovement graph numberOfPerturbations
    (outcomes.vertexPicker st.metrics.numberOfIterations)
    (outcomes.timingPicker st.metrics.numberOfIterations) st.solution st.bestSolution
  refine ⟨by rw [hm], ?_, ?_, ?_⟩
  · rintro ⟨i, h1, hi, hlt⟩
    have hne : (iterationPerturbations graph numberOfPerturbations outcomes
        st).iterationHadNoImprovement ≠ true := by
      intro hflagTrue
      exact (hflag.mp hflagTrue) i h1 hi hlt
    rw [hm]
    show (if _ then _ else _) = _
    rw [if_neg hne]
  · intro hnone
    have hyes : (iterationPerturbations graph numberOfPerturbations outcomes
        st).iterationHadNoImprovement = true := by
      apply hflag.mpr
      intro i h1 hi hlt
      exact hnone ⟨i, h1, hi, hlt⟩
    rw [hm]
    show (if _ then _ else _) = _
    rw [if_pos hyes]
  · intro outcomes2 st2 hv ht h2
    obtain ⟨_, _, _, _, hm2⟩ := localSearchIteration_eq_some graph numberOfPerturbations
      outcomes2 st st2 h2
    rw [hm, hm2]
    unfold iterationPerturbations
    rw [hv, ht]

/-- Witness of C17: the first iteration on the 3-cycle from all-zero
timings, with two perturbations. -/
theorem localSearchIteration_counters_witness :
    ∃ st1,
      localSearchIteration cycle3Graph 2 cycle3Outcomes (localSearchStart (fun _ => 0))
        = some st1 ∧
      (st1.metrics.numberOfIterations
          = (localSearchStart (fun _ => 0)).metrics.numberOfIterations + 1 ∧
        ((∃ i, 1 ≤ i ∧ i ≤ 2 ∧
            cycle3Graph.vertexPenalty
                (cycle3Outcomes.vertexPicker
                  (localSearchStart (fun _ => 0)).metrics.numberOfIterations)
                (setTiming (localSearchStart (fun _ => 0)).solution
                  (cycle3Outcomes.vertexPicker
                    (localSearchStart (fun _ => 0)).metrics.numberOfIterations)
                  (cycle3Outcomes.timingPicker
                    (localSearchStart (fun _ => 0)).metrics.numberOfIterations i))
              < cycle3Graph.vertexPenalty
                  (cycle3Outcomes.vertexPicker
                    (localSearchStart (fun _ => 0)).metrics.numberOfIterations)
                  (localSearchStart (fun _ => 0)).solution) →
          st1.metrics.numberOfIterationsWithoutImprovement = 0) ∧
        ((¬ ∃ i, 1 ≤ i ∧ i ≤ 2 ∧
            cycle3Graph.vertexPenalty
                (cycle3Outcomes.vertexPicker
                  (localSearchStart (fun _ => 0)).metrics.numberOfIterations)
                (setTiming (localSearchStart (fun _ => 0)).solution
                  (cycle3Outcomes.vertexPicker
                    (localSearchStart (fun _ => 0)).metrics.numberOfIterations)
                  (cycle3Outcomes.timingPicker
                    (localSearchStart (fun _ => 0)).metrics.numberOfIterations i))
              < cycle3Graph.vertexPenalty
                  (cycle3Outcomes.vertexPicker
                    (localSearchStart (fun _ => 0)).metrics.numberOfIterations)
                  (localSearchStart (fun _ => 0)).solution) →
          st1.metrics.numberOfIterationsWithoutImprovement
            = (localSearchStart (fun _ => 0)).metrics.numberOfIterationsWithoutImprovement
                + 1) ∧
        (∀ (outcomes2 : LocalSearchOutcomes) (st2 : LocalSearchState),
          outcomes2.vertexPicker = cycle3Outcomes.vertexPicker →
          outcomes2.timingPicker = cycle3Outcomes.timingPicker →
          localSearchIteration cycle3Graph 2 outcomes2 (localSearchStart (fun _ => 0))
            = some st2 →
          st2.metrics = st1.metrics)) := by
  obtain ⟨st1, h⟩ := localSearchIteration_isSome cycle3Graph 2 cycle3Outcomes
    cycle3Graph_nonneg cycle3Outcomes_valid (localSearchStart (fun _ => 0))
  exact ⟨st1, h, localSearchIteration_counters cycle3Graph 2 cycle3Outcomes _ st1 h⟩

/-! ## Lemmas on the candidates and the roulette -/

theorem candidateList_succ (graph : Graph) (m : Nat) (vertex : Vertex)
    (timingPicker : Nat → TimeUnit) (solution bestSolution : Solution) :
    candidateList graph (m + 1) vertex timingPicker solution bestSolution
      = candidateList graph m vertex timingPicker solution bestSolution ++
          [{ timing := timingPicker (1 + m)
             penalty := graph.vertexPenalty vertex
               (setTiming solution vertex (timingPicker (1 + m))) }] := by
  unfold candidateList
  rw [List.range'_1_concat, List.map_append]
  rfl

/-- The array filled by the loop over the perturbations is the list of
candidates of the specification. -/
theorem perturbationLoop_perturbations (graph : Graph) (m : Nat) (vertex : Vertex)
    (timingPicker : Nat → TimeUnit) (solution bestSolution : Solution) :
    (perturbationLoop graph m vertex timingPicker solution bestSolution).perturbations
      = candidateList graph m vertex timingPicker solution bestSolution := by
  induction m with
  | zero => rfl
  | succ k ih =>
    obtain ⟨t, ht⟩ := perturbationLoop_solution graph k vertex timingPicker solution
      bestSolution
    rw [perturbationLoop_succ, perturbationStep_perturbations, ih, ht, setTiming_setTiming,
      candidateList_succ]

theorem candidateList_length (graph : Graph) (m : Nat) (vertex : Vertex)
    (timingPicker : Nat → TimeUnit) (solution bestSolution : Solution) :
    (candidateList graph m vertex timingPicker solution bestSolution).length = m + 1 := by
  rw [← perturbationLoop_perturbations, perturbationLoop_length]

/-- Every candidate carries the current timing of the vertex or one of the
drawn timings. -/
theorem mem_candidateList (graph : Graph) (m : Nat) (vertex : Vertex)
    (timingPicker : Nat → TimeUnit) (solution bestSolution : Solution) (p : Perturbation)
    (hp : p ∈ candidateList graph m vertex timingPicker solution bestSolution) :
    p.timing = solution vertex ∨ ∃ i, 1 ≤ i ∧ i ≤ m ∧ p.timing = timingPicker i := by
  induction m with
  | zero =>
    simp only [candidateList, List.range'_zero, List.map_nil, List.mem_singleton] at hp
    left
    rw [hp]
    rfl
  | succ k ih =>
    rw [candidateList_succ, List.mem_append, List.mem_singleton] at hp
    rcases hp with hp | hp
    · rcases ih hp with h | ⟨i, h1, hi, h⟩
      · exact Or.inl h
      · exact Or.inr ⟨i, h1, by omega, h⟩
    · right
      refine ⟨1 + k, by omega, by omega, ?_⟩
      rw [hp]

theorem cumulativePenalty_cons_zero (p : Perturbation) (rest : List Perturbation) :
    cumulativePenalty (p :: rest) 0 = p.penalty := by
  simp [cumulativePenalty]

theorem cumulativePenalty_cons_succ (p : Perturbation) (rest : List Perturbation) (i : Nat) :
    cumulativePenalty (p :: rest) (i + 1) = p.penalty + cumulativePenalty rest i := by
  simp [cumulativePenalty]

/-- The roulette walk stops at the first slot whose cumulative penalty,
added to the sum accumulated before the walk, reaches the target. -/
theorem rouletteWalk_spec (rouletteTarget : TimeUnit) (l : List Perturbation) :
    ∀ (roulette timing : TimeUnit),
      rouletteWalk rouletteTarget l roulette = some timing →
      ∃ i p, l[i]? = some p ∧ p.timing = timing ∧
        rouletteTarget ≤ roulette + cumulativePenalty l i ∧
        ∀ j, j < i → roulette + cumulativePenalty l j < rouletteTarget := by
  induction l with
  | nil =>
    intro roulette timing h
    exact absurd h (by simp [rouletteWalk])
  | cons q rest ih =>
    intro roulette timing h
    unfold rouletteWalk at h
    by_cases hle : rouletteTarget ≤ roulette + q.penalty
    · rw [if_pos hle] at h
      injection h with h
      refine ⟨0, q, List.getElem?_cons_zero, h, ?_, ?_⟩
      · rw [cumulativePenalty_cons_zero]
        exact hle
      · intro j hj
        omega
    · rw [if_neg hle] at h
      obtain ⟨i, p, hget, htim, hreach, hfirst⟩ := ih (roulette + q.penalty) timing h
      refine ⟨i + 1, p, by rw [List.getElem?_cons_succ]; exact hget, htim, ?_, ?_⟩
      · rw [cumulativePenalty_cons_succ]
        linarith
      · intro j hj
        cases j with
        | zero =>
          rw [cumulativePenalty_cons_zero]
          exact lt_of_not_le hle
        | succ j2 =>
          rw [cumulativePenalty_cons_succ]
          have := hfirst j2 (by omega)
          linarith

/-- In an iteration of the local search that has a result, the timing
written to `solution` is that of the first slot of the sorted candidates
whose cumulative penalty reaches the roulette target. -/
theorem localSearchIteration_roulette (graph : Graph) (M : Nat)
    (outcomes : LocalSearchOutcomes) (st st1 : LocalSearchState)
    (h : localSearchIteration graph M outcomes st = some st1) :
    ∃ i p,
      (outcomes.sort (candidateList graph M
        (outcomes.vertexPicker st.metrics.numberOfIterations)
        (outcomes.timingPicker st.metrics.numberOfIterations)
        st.solution st.bestSolution))[i]? = some p ∧
      rouletteWalk
        (outcomes.roulettePicker st.metrics.numberOfIterations
          ((candidateList graph M
            (outcomes.vertexPicker st.metrics.numberOfIterations)
            (outcomes.timingPicker st.metrics.numberOfIterations)
            st.solution st.bestSolution).map (fun q => q.penalty)).sum)
        (outcomes.sort (candidateList graph M
          (outcomes.vertexPicker st.metrics.numberOfIterations)
          (outcomes.timingPicker st.metrics.numberOfIterations)
          st.solution st.bestSolution)) 0 = some p.timing ∧
      st1.solution
        = setTiming st.solution (outcomes.vertexPicker st.metrics.numberOfIterations)
            p.timing ∧
      outcomes.roulettePicker st.metrics.numberOfIterations
          ((candidateList graph M
            (outcomes.vertexPicker st.metrics.numberOfIterations)
            (outcomes.timingPicker st.metrics.numberOfIterations)
            st.solution st.bestSolution).map (fun q => q.penalty)).sum
        ≤ cumulativePenalty
            (outcomes.sort (candidateList graph M
              (outcomes.vertexPicker st.metrics.numberOfIterations)
              (outcomes.timingPicker st.metrics.numberOfIterations)
              st.solution st.bestSolution)) i ∧
      ∀ j, j < i →
        cumulativePenalty
            (outcomes.sort (candidateList graph M
              (outcomes.vertexPicker st.metrics.numberOfIterations)
              (outcomes.timingPicker st.metrics.numberOfIterations)
              st.solution st.bestSolution)) j
          < outcomes.roulettePicker st.metrics.numberOfIterations
              ((candidateList graph M
                (outcomes.vertexPicker st.metrics.numberOfIterations)
                (outcomes.timingPicker st.metrics.numberOfIterations)
                st.solution st.bestSolution).map (fun q => q.penalty)).sum := by
  obtain ⟨timing, hwalk, hsol, _, _⟩ := localSearchIteration_eq_some graph M outcomes st st1 h
  obtain ⟨t, ht⟩ := perturbationLoop_solution graph M
    (outcomes.vertexPicker st.metrics.numberOfIterations)
    (outcomes.timingPicker st.metrics.numberOfIterations) st.solution st.bestSolution
  unfold iterationPerturbations at hwalk hsol
  rw [perturbationLoop_rouletteMax, perturbationLoop_perturbations] at hwalk
  rw [ht, setTiming_setTiming] at hsol
  obtain ⟨i, p, hget, htim, hreach, hfirst⟩ := rouletteWalk_spec _ _ 0 timing hwalk
  rw [zero_add] at hreach
  refine ⟨i, p, hget, by rw [htim]; exact hwalk, by rw [htim]; exact hsol, hreach, ?_⟩
  intro j hj
  have := hfirst j hj
  rw [zero_add] at this
  exact this

/-- C19: in every iteration of `localSearchHeuristic` with non-negative
penalties and a roulette target within `[0, rouletteMax]`, `rouletteMax` is
the sum of the penalties of all `M + 1` candidates, the roulette walk stops
at a slot `i ≤ M` of the sorted array, so inside the array, and the timing of
that one slot is written to `solution` at the picked vertex. -/
theorem localSearchIteration_roulette_in_bounds (graph : Graph)
    (numberOfPerturbations : Nat) (outcomes : LocalSearchOutcomes)
    (st : LocalSearchState) (hP : graph.NonnegPenalties) (hO : outcomes.Valid graph) :
    (iterationPerturbations graph numberOfPerturbations outcomes st).rouletteMax
      = ((iterationCandidates graph numberOfPerturbations outcomes st).map
          (fun p => p.penalty)).sum ∧
    (iterationPerturbations graph numberOfPerturbations outcomes st).perturbations.length
      = numberOfPerturbations + 1 ∧
    (iterationSorted graph numberOfPerturbations outcomes st).length
      = numberOfPerturbations + 1 ∧
    ∃ st1 i p,
      localSearchIteration graph numberOfPerturbations outcomes st = some st1 ∧
      i ≤ numberOfPerturbations ∧
      (iterationSorted graph numberOfPerturbations outcomes st)[i]? = some p ∧
      rouletteWalk (iterationTarget graph numberOfPerturbations outcomes st)
        (iterationSorted graph numberOfPerturbations outcomes st) 0 = some p.timing ∧
      st1.solution
        = setTiming st.solution (outcomes.vertexPicker st.metrics.numberOfIterations)
            p.timing := by
  have hsort := hO.2.2.2 (iterationCandidates graph numberOfPerturbations outcomes st)
  have hlen : (iterationSorted graph numberOfPerturbations outcomes st).length
      = numberOfPerturbations + 1 := by
    unfold iterationSorted
    rw [hsort.1.length_eq]
    exact candidateList_length graph numberOfPerturbations _ _ _ _
  obtain ⟨st1, h⟩ := localSearchIteration_isSome graph numberOfPerturbations outcomes hP hO st
  obtain ⟨i, p, hget, hwalk, hsol, _, _⟩ :=
    localSearchIteration_roulette graph numberOfPerturbations outcomes st st1 h
  have hi : i < (iterationSorted graph numberOfPerturbations outcomes st).length := by
    obtain ⟨hlt, _⟩ := List.getElem?_eq_some.mp hget
    exact hlt
  refine ⟨?_, perturbationLoop_length graph numberOfPerturbations _ _ _ _, hlen,
    st1, i, p, h, by omega, hget, hwalk, hsol⟩
  unfold iterationPerturbations iterationCandidates
  rw [perturbationLoop_rouletteMax, perturbationLoop_perturbations]

/-- Witness of C19: the first iteration on the 3-cycle from all-zero
timings, with two perturbations. -/
theorem localSearchIteration_roulette_in_bounds_witness :
    (cycle3Graph.NonnegPenalties ∧ cycle3Outcomes.Valid cycle3Graph) ∧
    ((iterationPerturbations cycle3Graph 2 cycle3Outcomes (localSearchStart (fun _ => 0))).rouletteMax
        = ((iterationCandidates cycle3Graph 2 cycle3Outcomes (localSearchStart (fun _ => 0))).map
            (fun p => p.penalty)).sum ∧
      (iterationPerturbations cycle3Graph 2 cycle3Outcomes (localSearchStart (fun _ => 0))).perturbations.length
        = 2 + 1 ∧
      (iterationSorted cycle3Graph 2 cycle3Outcomes (localSearchStart (fun _ => 0))).length
        = 2 + 1 ∧
      ∃ st1 i p,
        localSearchIteration cycle3Graph 2 cycle3Outcomes (localSearchStart (fun _ => 0)) = some st1 ∧
        i ≤ 2 ∧
        (iterationSorted cycle3Graph 2 cycle3Outcomes (localSearchStart (fun _ => 0)))[i]? = some p ∧
        rouletteWalk (iterationTarget cycle3Graph 2 cycle3Outcomes (localSearchStart (fun _ => 0)))
          (iterationSorted cycle3Graph 2 cycle3Outcomes (localSearchStart (fun _ => 0))) 0 = some p.timing ∧
        st1.solution
          = setTiming (localSearchStart (fun _ => 0)).solution (cycle3Outcomes.vertexPicker (localSearchStart (fun _ => 0)).metrics.numberOfIterations)
              p.timing) :=
  ⟨⟨cycle3Graph_nonneg, cycle3Outcomes_valid⟩,
   localSearchIteration_roulette_in_bounds cycle3Graph 2 cycle3Outcomes
     (localSearchStart (fun _ => 0)) cycle3Graph_nonneg cycle3Outcomes_valid⟩

/-! ## Lemmas on runs of the local search -/

/-- With no perturbation an iteration has the current timing of the picked
vertex as its only candidate: it leaves both solutions as they are and raises
both counters. -/
theorem localSearchIteration_zero (graph : Graph) (outcomes : LocalSearchOutcomes)
    (hP : graph.NonnegPenalties) (hO : outcomes.Valid graph) (st : LocalSearchState) :
    localSearchIteration graph 0 outcomes st
      = some
          { solution := st.solution
            bestSolution := st.bestSolution
            metrics :=
              { numberOfIterations := st.metrics.numberOfIterations + 1
                numberOfIterationsWithoutImprovement :=
                  st.metrics.numberOfIterationsWithoutImprovement + 1 } } := by
  obtain ⟨st1, h⟩ := localSearchIteration_isSome graph 0 outcomes hP hO st
  obtain ⟨timing, hwalk, hsol, hbest, hm⟩ := localSearchIteration_eq_some graph 0 outcomes
    st st1 h
  have hperm := (hO.2.2.2 (iterationPerturbations graph 0 outcomes st).perturbations).1
  have hps : iterationPerturbations graph 0 outcomes st
      = { solution := st.solution
          bestSolution := st.bestSolution
          perturbations :=
            [{ timing := getTiming st.solution
                 (outcomes.vertexPicker st.metrics.numberOfIterations)
               penalty := graph.vertexPenalty
                 (outcomes.vertexPicker st.metrics.numberOfIterations) st.bestSolution }]
          rouletteMax := graph.vertexPenalty
            (outcomes.vertexPicker st.metrics.numberOfIterations) st.bestSolution
          iterationHadNoImprovement := true
          bestTiming := getTiming st.bestSolution
            (outcomes.vertexPicker st.metrics.numberOfIterations)
          bestPenalty := graph.vertexPenalty
            (outcomes.vertexPicker st.metrics.numberOfIterations) st.bestSolution } := rfl
  rw [hps] at hwalk hsol hbest hm hperm
  simp only at hwalk hsol hbest hm hperm
  rw [List.perm_singleton.mp hperm] at hwalk
  obtain ⟨i, p, hget, htim, _, _⟩ := rouletteWalk_spec _ _ 0 timing hwalk
  have hp : p = { timing := getTiming st.solution
                    (outcomes.vertexPicker st.metrics.numberOfIterations)
                  penalty := graph.vertexPenalty
                    (outcomes.vertexPicker st.metrics.numberOfIterations)
                    st.bestSolution } := by
    have hmem := List.getElem?_mem hget
    exact List.mem_singleton.mp hmem
  rw [hp] at htim
  simp only [getTiming] at htim hbest
  rw [← htim, setTiming_self] at hsol
  rw [setTiming_self] at hbest
  rw [h]
  congr 1
  cases st1 with
  | mk s b m =>
    simp only at hsol hbest hm
    rw [hsol, hbest, hm]
    rfl

/-- With no perturbation `k` executions of the loop body leave both
solutions as they are. -/
theorem localSearchIterations_zero (graph : Graph) (outcomes : LocalSearchOutcomes)
    (hP : graph.NonnegPenalties) (hO : outcomes.Valid graph) (k : Nat) :
    ∀ st : LocalSearchState,
      localSearchIterations graph 0 outcomes k st
        = some
            { solution := st.solution
              bestSolution := st.bestSolution
              metrics :=
                { numberOfIterations := st.metrics.numberOfIterations + k
                  numberOfIterationsWithoutImprovement :=
                    st.metrics.numberOfIterationsWithoutImprovement + k } } := by
  induction k with
  | zero =>
    intro st
    rfl
  | succ j ih =>
    intro st
    simp only [localSearchIterations, localSearchIteration_zero graph outcomes hP hO st]
    rw [ih]
    simp only [Option.some.injEq, LocalSearchState.mk.injEq, LocalSearchMetrics.mk.injEq,
      true_and]
    constructor <;> omega

/-- An invariant of the loop body is an invariant of the main loop, for
every stop criterion. -/
theorem localSearchLoop_invariant (graph : Graph) (M : Nat)
    (stopCriteriaNotMet : LocalSearchMetrics → Bool) (outcomes : LocalSearchOutcomes)
    (Inv : LocalSearchState → Prop)
    (hstep : ∀ st st1, Inv st → localSearchIteration graph M outcomes st = some st1 → Inv st1)
    (fuel : Nat) :
    ∀ st st1 : LocalSearchState, Inv st →
      localSearchLoop graph M stopCriteriaNotMet outcomes fuel st = some st1 → Inv st1 := by
  induction fuel with
  | zero =>
    intro st st1 _ h
    exact absurd h (by simp [localSearchLoop])
  | succ f ih =>
    intro st st1 hinv h
    unfold localSearchLoop at h
    by_cases hstop : stopCriteriaNotMet st.metrics = true
    · rw [if_pos hstop] at h
      cases hit : localSearchIteration graph M outcomes st with
      | none =>
        rw [hit] at h
        exact absurd h (by simp)
      | some st2 =>
        rw [hit] at h
        exact ih st2 st1 (hstep st st2 hinv hit) h
    · rw [if_neg hstop] at h
      injection h with h
      rw [← h]
      exact hinv

/-- The best timing at the end of the loop over the perturbations is the
timing of the vertex in `bestSolution` or one of the drawn timings. -/
theorem perturbationLoop_bestTiming_mem (graph : Graph) (m : Nat) (vertex : Vertex)
    (timingPicker : Nat → TimeUnit) (solution bestSolution : Solution) :
    (perturbationLoop graph m vertex timingPicker solution bestSolution).bestTiming
        = bestSolution vertex ∨
    ∃ i, 1 ≤ i ∧ i ≤ m ∧
      (perturbationLoop graph m vertex timingPicker solution bestSolution).bestTiming
        = timingPicker i := by
  induction m with
  | zero => exact Or.inl rfl
  | succ k ih =>
    rw [perturbationLoop_succ, perturbationStep_bestTiming]
    split_ifs
    · exact Or.inr ⟨1 + k, by omega, by omega, rfl⟩
    · rcases ih with h | ⟨i, h1, hi, h⟩
      · exact Or.inl h
      · exact Or.inr ⟨i, h1, by omega, h⟩

/-- An iteration of the local search changes `solution` and `bestSolution`
at the picked vertex only, and the new timings there are the old ones or
drawn ones. -/
theorem localSearchIteration_frame (graph : Graph) (M : Nat)
    (outcomes : LocalSearchOutcomes) (hO : outcomes.Valid graph)
    (st st1 : LocalSearchState)
    (h : localSearchIteration graph M outcomes st = some st1) :
    (∃ t, st1.solution
        = setTiming st.solution (outcomes.vertexPicker st.metrics.numberOfIterations) t ∧
      (t = st.solution (outcomes.vertexPicker st.metrics.numberOfIterations) ∨
        ∃ i, t = outcomes.timingPicker st.metrics.numberOfIterations i)) ∧
    (∃ t, st1.bestSolution
        = setTiming st.bestSolution (outcomes.vertexPicker st.metrics.numberOfIterations) t ∧
      (t = st.bestSolution (outcomes.vertexPicker st.metrics.numberOfIterations) ∨
        ∃ i, t = outcomes.timingPicker st.metrics.numberOfIterations i)) := by
  obtain ⟨i, p, hget, _, hsol, _, _⟩ := localSearchIteration_roulette graph M outcomes st st1 h
  obtain ⟨_, _, _, hbest, _⟩ := localSearchIteration_eq_some graph M outcomes st st1 h
  obtain ⟨⟨tb, htb⟩, _, _⟩ := perturbationLoop_best graph M
    (outcomes.vertexPicker st.metrics.numberOfIterations)
    (outcomes.timingPicker st.metrics.numberOfIterations) st.solution st.bestSolution
  constructor
  · refine ⟨p.timing, hsol, ?_⟩
    have hmem : p ∈ candidateList graph M
        (outcomes.vertexPicker st.metrics.numberOfIterations)
        (outcomes.timingPicker st.metrics.numberOfIterations) st.solution st.bestSolution :=
      (hO.2.2.2 _).1.mem_iff.mp (List.getElem?_mem hget)
    rcases mem_candidateList _ _ _ _ _ _ _ hmem with h0 | ⟨j, _, _, hj⟩
    · exact Or.inl h0
    · exact Or.inr ⟨j, hj⟩
  · unfold iterationPerturbations at hbest
    rw [htb, setTiming_setTiming] at hbest
    refine ⟨_, hbest, ?_⟩
    rcases perturbationLoop_bestTiming_mem graph M
      (outcomes.vertexPicker st.metrics.numberOfIterations)
      (outcomes.timingPicker st.metrics.numberOfIterations) st.solution st.bestSolution
      with h0 | ⟨j, _, _, hj⟩
    · exact Or.inl h0
    · exact Or.inr ⟨j, hj⟩

/-- An iteration of the local search keeps the timings of both solutions in
`[0, C)`. -/
theorem localSearchIteration_range (graph : Graph) (M : Nat)
    (outcomes : LocalSearchOutcomes) (hO : outcomes.Valid graph)
    (st st1 : LocalSearchState)
    (hst : ∀ v, v < graph.getNumberOfVertices →
      (0 ≤ st.solution v ∧ st.solution v < graph.getCycle) ∧
      (0 ≤ st.bestSolution v ∧ st.bestSolution v < graph.getCycle))
    (h : localSearchIteration graph M outcomes st = some st1) :
    ∀ v, v < graph.getNumberOfVertices →
      (0 ≤ st1.solution v ∧ st1.solution v < graph.getCycle) ∧
      (0 ≤ st1.bestSolution v ∧ st1.bestSolution v < graph.getCycle) := by
  obtain ⟨⟨t, hsol, ht⟩, ⟨tb, hbest, htb⟩⟩ := localSearchIteration_frame graph M outcomes hO
    st st1 h
  have hdraw : ∀ i, 0 ≤ outcomes.timingPicker st.metrics.numberOfIterations i ∧
      outcomes.timingPicker st.metrics.numberOfIterations i < graph.getCycle := by
    intro i
    have := hO.2.1 st.metrics.numberOfIterations i
    exact ⟨this.1, by linarith [this.2]⟩
  intro v hv
  rw [hsol, hbest]
  simp only [setTiming]
  by_cases hvp : v = outcomes.vertexPicker st.metrics.numberOfIterations
  · rw [hvp, Function.update_same, Function.update_same]
    constructor
    · rcases ht with h0 | ⟨i, hi⟩
      · rw [h0, ← hvp]
        exact (hst v hv).1
      · rw [hi]
        exact hdraw i
    · rcases htb with h0 | ⟨i, hi⟩
      · rw [h0, ← hvp]
        exact (hst v hv).2
      · rw [hi]
        exact hdraw i
  · rw [Function.update_noteq hvp, Function.update_noteq hvp]
    exact hst v hv

/-! ## Theorems on runs of the local search -/

theorem zeroSolution_range (v : Nat) (_hv : v < cycle3Graph.getNumberOfVertices) :
    0 ≤ (fun _ => 0 : Solution) v ∧ (fun _ => 0 : Solution) v < cycle3Graph.getCycle := by
  show (0 : Int) ≤ 0 ∧ (0 : Int) < 6
  decide

/-- C12, as amended: `localSearchHeuristic` called with
`numberOfPerturbations = 0` reports no error: with non-negative penalties and
library outcomes within their contracts it enters its main loop, every
iteration leaves `solution` and `bestSolution` as they are, and driven by
`numberOfIterations(k)` it runs `k` iterations and returns the initial
solution. -/
theorem localSearchHeuristic_zero_perturbations (graph : Graph)
    (initialSolution : Solution) (k : Nat) (outcomes : LocalSearchOutcomes) (fuel : Nat)
    (hP : graph.NonnegPenalties) (hO : outcomes.Valid graph) (hfuel : k < fuel) :
    localSearchRun graph initialSolution 0 (stop_criteria.numberOfIterations k) outcomes fuel
      = some
          { solution := initialSolution
            bestSolution := initialSolution
            metrics :=
              { numberOfIterations := k, numberOfIterationsWithoutImprovement := k } } ∧
    localSearchHeuristic graph initialSolution 0 (stop_criteria.numberOfIterations k)
      outcomes fuel = some initialSolution := by
  have hrun : localSearchRun graph initialSolution 0 (stop_criteria.numberOfIterations k)
      outcomes fuel
      = some
          { solution := initialSolution
            bestSolution := initialSolution
            metrics :=
              { numberOfIterations := k, numberOfIterationsWithoutImprovement := k } } := by
    unfold localSearchRun
    rw [localSearchLoop_eq_iterations graph 0 k outcomes k fuel
      (localSearchStart initialSolution) (by simp [localSearchStart]) hfuel,
      localSearchIterations_zero graph outcomes hP hO k]
    simp [localSearchStart]
  refine ⟨hrun, ?_⟩
  unfold localSearchHeuristic
  rw [hrun]
  rfl

/-- Witness of C12 as amended: the 3-cycle from all-zero timings, `k = 3`. -/
theorem localSearchHeuristic_zero_perturbations_witness :
    (cycle3Graph.NonnegPenalties ∧ cycle3Outcomes.Valid cycle3Graph ∧ 3 < 4) ∧
    (localSearchRun cycle3Graph (fun _ => 0) 0 (stop_criteria.numberOfIterations 3)
        cycle3Outcomes 4
      = some
          { solution := fun _ => 0
            bestSolution := fun _ => 0
            metrics :=
              { numberOfIterations := 3, numberOfIterationsWithoutImprovement := 3 } } ∧
    localSearchHeuristic cycle3Graph (fun _ => 0) 0 (stop_criteria.numberOfIterations 3)
      cycle3Outcomes 4 = some (fun _ => 0)) :=
  ⟨⟨cycle3Graph_nonneg, cycle3Outcomes_valid, by decide⟩,
   localSearchHeuristic_zero_perturbations cycle3Graph (fun _ => 0) 3 cycle3Outcomes 4
     cycle3Graph_nonneg cycle3Outcomes_valid (by decide)⟩

/-- Counterexample to C12 as stated: called with `numberOfPerturbations = 0`
on the 3-cycle (non-negative penalties, outcomes within their contracts),
`localSearchHeuristic` driven by `numberOfIterations(3)` executes its loop
body 3 times and returns a solution, the all-zero one, and not an error. -/
theorem zero_perturbations_not_rejected_counterexample :
    cycle3Graph.NonnegPenalties ∧ cycle3Outcomes.Valid cycle3Graph ∧
    (localSearchRun cycle3Graph (fun _ => 0) 0 (stop_criteria.numberOfIterations 3)
        cycle3Outcomes 4).map
      (fun st => (st.metrics.numberOfIterations,
        st.bestSolution 0, st.bestSolution 1, st.bestSolution 2))
      = some (3, 0, 0, 0) ∧
    (localSearchHeuristic cycle3Graph (fun _ => 0) 0 (stop_criteria.numberOfIterations 3)
        cycle3Outcomes 4).isSome = true :=
  ⟨cycle3Graph_nonneg, cycle3Outcomes_valid, by decide, by decide⟩

/-- C20: with library outcomes within their contracts, an iteration of
`localSearchHeuristic` from a state whose two solutions have all timings in
`[0, C)` changes `solution` and `bestSolution` at most at the picked vertex
and leaves all timings of both in `[0, C)`; hence from an initial solution
with timings in `[0, C)` every returned solution, whatever the stop
criterion, has all timings in `[0, C)`, and with non-negative penalties the
run driven by `numberOfIterations(k)` does return one. -/
theorem localSearchHeuristic_preserves_range (graph : Graph)
    (initialSolution : Solution) (numberOfPerturbations k : Nat)
    (outcomes : LocalSearchOutcomes) (fuel : Nat)
    (hP : graph.NonnegPenalties) (hO : outcomes.Valid graph)
    (hinit : ∀ v, v < graph.getNumberOfVertices →
      0 ≤ initialSolution v ∧ initialSolution v < graph.getCycle)
    (hfuel : k < fuel) :
    (∀ st st1 : LocalSearchState,
      (∀ v, v < graph.getNumberOfVertices →
        (0 ≤ st.solution v ∧ st.solution v < graph.getCycle) ∧
        (0 ≤ st.bestSolution v ∧ st.bestSolution v < graph.getCycle)) →
      localSearchIteration graph numberOfPerturbations outcomes st = some st1 →
      (∀ u, u ≠ outcomes.vertexPicker st.metrics.numberOfIterations →
        st1.solution u = st.solution u ∧ st1.bestSolution u = st.bestSolution u) ∧
      (∀ v, v < graph.getNumberOfVertices →
        (0 ≤ st1.solution v ∧ st1.solution v < graph.getCycle) ∧
        (0 ≤ st1.bestSolution v ∧ st1.bestSolution v < graph.getCycle))) ∧
    (∀ (stopCriteriaNotMet : LocalSearchMetrics → Bool) (fuel2 : Nat) (result : Solution),
      localSearchHeuristic graph initialSolution numberOfPerturbations stopCriteriaNotMet
        outcomes fuel2 = some result →
      ∀ v, v < graph.getNumberOfVertices → 0 ≤ result v ∧ result v < graph.getCycle) ∧
    (∃ result,
      localSearchHeuristic graph initialSolution numberOfPerturbations
        (stop_criteria.numberOfIterations k) outcomes fuel = some result ∧
      ∀ v, v < graph.getNumberOfVertices → 0 ≤ result v ∧ result v < graph.getCycle) := by
  have hany : ∀ (stopCriteriaNotMet : LocalSearchMetrics → Bool) (fuel2 : Nat)
      (result : Solution),
      localSearchHeuristic graph initialSolution numberOfPerturbations stopCriteriaNotMet
        outcomes fuel2 = some result →
      ∀ v, v < graph.getNumberOfVertices → 0 ≤ result v ∧ result v < graph.getCycle := by
    intro stop fuel2 result hres v hv
    unfold localSearchHeuristic localSearchRun at hres
    cases hloop : localSearchLoop graph numberOfPerturbations stop outcomes fuel2
        (localSearchStart initialSolution) with
    | none =>
      rw [hloop] at hres
      exact absurd hres (by simp)
    | some st1 =>
      rw [hloop] at hres
      simp only [Option.map_some', Option.some.injEq] at hres
      have hinv := localSearchLoop_invariant graph numberOfPerturbations stop outcomes
        (fun st => ∀ v, v < graph.getNumberOfVertices →
          (0 ≤ st.solution v ∧ st.solution v < graph.getCycle) ∧
          (0 ≤ st.bestSolution v ∧ st.bestSolution v < graph.getCycle))
        (fun st st2 hst hit =>
          localSearchIteration_range graph numberOfPerturbations outcomes hO st st2 hst hit)
        fuel2 (localSearchStart initialSolution) st1
        (fun v hv => ⟨hinit v hv, hinit v hv⟩) hloop
      rw [← hres]
      exact (hinv v hv).2
  refine ⟨?_, hany, ?_⟩
  · intro st st1 hst hit
    refine ⟨?_, localSearchIteration_range graph numberOfPerturbations outcomes hO st st1
      hst hit⟩
    obtain ⟨⟨t, hsol, _⟩, ⟨tb, hbest, _⟩⟩ := localSearchIteration_frame graph
      numberOfPerturbations outcomes hO st st1 hit
    intro u hu
    rw [hsol, hbest]
    simp only [setTiming]
    rw [Function.update_noteq hu, Function.update_noteq hu]
    exact ⟨rfl, rfl⟩
  · obtain ⟨st, hst, _⟩ := localSearchIterations_isSome graph numberOfPerturbations
      outcomes hP hO k (localSearchStart initialSolution)
    have hres : localSearchHeuristic graph initialSolution numberOfPerturbations
        (stop_criteria.numberOfIterations k) outcomes fuel = some st.bestSolution := by
      unfold localSearchHeuristic localSearchRun
      rw [localSearchLoop_eq_iterations graph numberOfPerturbations k outcomes k fuel
        (localSearchStart initialSolution) (by simp [localSearchStart]) hfuel, hst]
      rfl
    exact ⟨st.bestSolution, hres, hany _ _ _ hres⟩

/-- Witness of C20: the 3-cycle with `C = 6`, all-zero initial timings, one
perturbation per iteration and `k = 100`. -/
theorem localSearchHeuristic_preserves_range_witness :
    (cycle3Graph.NonnegPenalties ∧ cycle3Outcomes.Valid cycle3Graph ∧
      (∀ v, v < cycle3Graph.getNumberOfVertices →
        0 ≤ (fun _ => 0 : Solution) v ∧ (fun _ => 0 : Solution) v < cycle3Graph.getCycle) ∧
      100 < 101) ∧
    ((∀ st st1 : LocalSearchState,
        (∀ v, v < cycle3Graph.getNumberOfVertices →
          (0 ≤ st.solution v ∧ st.solution v < cycle3Graph.getCycle) ∧
          (0 ≤ st.bestSolution v ∧ st.bestSolution v < cycle3Graph.getCycle)) →
        localSearchIteration cycle3Graph 1 cycle3Outcomes st = some st1 →
        (∀ u, u ≠ cycle3Outcomes.vertexPicker st.metrics.numberOfIterations →
          st1.solution u = st.solution u ∧ st1.bestSolution u = st.bestSolution u) ∧
        (∀ v, v < cycle3Graph.getNumberOfVertices →
          (0 ≤ st1.solution v ∧ st1.solution v < cycle3Graph.getCycle) ∧
          (0 ≤ st1.bestSolution v ∧ st1.bestSolution v < cycle3Graph.getCycle))) ∧
      (∀ (stopCriteriaNotMet : LocalSearchMetrics → Bool) (fuel2 : Nat) (result : Solution),
        localSearchHeuristic cycle3Graph (fun _ => 0) 1 stopCriteriaNotMet
          cycle3Outcomes fuel2 = some result →
        ∀ v, v < cycle3Graph.getNumberOfVertices → 0 ≤ result v ∧ result v < cycle3Graph.getCycle) ∧
      (∃ result,
        localSearchHeuristic cycle3Graph (fun _ => 0) 1
          (stop_criteria.numberOfIterations 100) cycle3Outcomes 101 = some result ∧
        ∀ v, v < cycle3Graph.getNumberOfVertices → 0 ≤ result v ∧ result v < cycle3Graph.getCycle)) :=
  ⟨⟨cycle3Graph_nonneg, cycle3Outcomes_valid, zeroSolution_range, by decide⟩,
   localSearchHeuristic_preserves_range cycle3Graph (fun _ => 0) 1 100 cycle3Outcomes 101
     cycle3Graph_nonneg cycle3Outcomes_valid zeroSolution_range (by decide)⟩

/-! ## The best solution does not depend on the accepted trajectory -/

/-- The part of the loop over the perturbations that tracks the best timing
does not read `solution`. -/
theorem perturbationLoop_best_indep (graph : Graph) (m : Nat) (vertex : Vertex)
    (timingPicker : Nat → TimeUnit) (solution1 solution2 bestSolution : Solution) :
    (perturbationLoop graph m vertex timingPicker solution1 bestSolution).bestSolution
      = (perturbationLoop graph m vertex timingPicker solution2 bestSolution).bestSolution ∧
    (perturbationLoop graph m vertex timingPicker solution1 bestSolution).bestTiming
      = (perturbationLoop graph m vertex timingPicker solution2 bestSolution).bestTiming ∧
    (perturbationLoop graph m vertex timingPicker solution1 bestSolution).bestPenalty
      = (perturbationLoop graph m vertex timingPicker solution2 bestSolution).bestPenalty := by
  induction m with
  | zero => exact ⟨rfl, rfl, rfl⟩
  | succ k ih =>
    obtain ⟨hs, ht, hp⟩ := ih
    rw [perturbationLoop_succ, perturbationLoop_succ]
    refine ⟨?_, ?_, ?_⟩
    · rw [perturbationStep_bestSolution, perturbationStep_bestSolution, hs]
    · rw [perturbationStep_bestTiming, perturbationStep_bestTiming, hs, ht, hp]
    · rw [perturbationStep_bestPenalty, perturbationStep_bestPenalty, hs, hp]

/-- The value of `bestSolution` after an iteration is a function of its
value before, of the picked vertex and of the drawn timings. -/
theorem localSearchIteration_bestSolution (graph : Graph) (M : Nat)
    (outcomes : LocalSearchOutcomes) (st st1 : LocalSearchState)
    (h : localSearchIteration graph M outcomes st = some st1) :
    st1.bestSolution
      = bestSolutionAfter graph M (outcomes.vertexPicker st.metrics.numberOfIterations)
          (outcomes.timingPicker st.metrics.numberOfIterations) st.bestSolution := by
  obtain ⟨_, _, _, hbest, _⟩ := localSearchIteration_eq_some graph M outcomes st st1 h
  obtain ⟨hs, ht, _⟩ := perturbationLoop_best_indep graph M
    (outcomes.vertexPicker st.metrics.numberOfIterations)
    (outcomes.timingPicker st.metrics.numberOfIterations) st.solution st.bestSolution
    st.bestSolution
  unfold iterationPerturbations at hbest
  unfold bestSolutionAfter
  rw [hbest, hs, ht]

/-- Two sequences of executions of the loop body that start with the same
`bestSolution` and the same counter of iterations, and share the vertex picks
and the timing draws, end with the same `bestSolution`. -/
theorem localSearchIterations_best_agree (graph : Graph) (M : Nat)
    (outcomes1 outcomes2 : LocalSearchOutcomes)
    (hv : outcomes1.vertexPicker = outcomes2.vertexPicker)
    (ht : outcomes1.timingPicker = outcomes2.timingPicker) (k : Nat) :
    ∀ a b a1 b1 : LocalSearchState,
      a.bestSolution = b.bestSolution →
      a.metrics.numberOfIterations = b.metrics.numberOfIterations →
      localSearchIterations graph M outcomes1 k a = some a1 →
      localSearchIterations graph M outcomes2 k b = some b1 →
      a1.bestSolution = b1.bestSolution := by
  induction k with
  | zero =>
    intro a b a1 b1 hbest _ ha hb
    simp only [localSearchIterations, Option.some.injEq] at ha hb
    rw [← ha, ← hb]
    exact hbest
  | succ j ih =>
    intro a b a1 b1 hbest hn ha hb
    simp only [localSearchIterations] at ha hb
    cases hia : localSearchIteration graph M outcomes1 a with
    | none =>
      rw [hia] at ha
      exact absurd ha (by simp)
    | some a2 =>
      cases hib : localSearchIteration graph M outcomes2 b with
      | none =>
        rw [hib] at hb
        exact absurd hb (by simp)
      | some b2 =>
        rw [hia] at ha
        rw [hib] at hb
        have ea := localSearchIteration_bestSolution graph M outcomes1 a a2 hia
        have eb := localSearchIteration_bestSolution graph M outcomes2 b b2 hib
        have na := (localSearchIteration_best graph M outcomes1 a a2 hia).2.2
        have nb := (localSearchIteration_best graph M outcomes2 b b2 hib).2.2
        refine ih a2 b2 a1 b1 ?_ (by omega) ha hb
        rw [ea, eb, hv, ht, hbest, hn]

theorem cycle3OutcomesHigh_valid : cycle3OutcomesHigh.Valid cycle3Graph := by
  refine ⟨fun n => Nat.mod_lt n (by decide), fun n i => ?_, fun n hi h => ⟨h, le_refl hi⟩,
    sortByPenalty_valid⟩
  show (0 : Int) ≤ ((n + i) % 6 : Nat) ∧ (((n + i) % 6 : Nat) : Int) ≤ 6 - 1
  have h : (n + i) % 6 ≤ 5 := by omega
  have h2 : (((n + i) % 6 : Nat) : Int) ≤ 5 := by exact_mod_cast h
  exact ⟨Int.natCast_nonneg _, by linarith⟩

/-- C18: in an iteration of `localSearchHeuristic`, `bestSolution` after the
iteration is a function of `bestSolution` before it, of the picked vertex and
of the sampled timings; and two runs with `numberOfIterations(k)` from the
same initial solution that share the vertex picks and the timing draws, with
any roulette targets and sort outcomes within the library contracts, return
the same solution. -/
theorem localSearchHeuristic_best_independent_of_roulette (graph : Graph)
    (initialSolution : Solution) (numberOfPerturbations k : Nat)
    (outcomes1 outcomes2 : LocalSearchOutcomes) (fuel : Nat)
    (hP : graph.NonnegPenalties)
    (hO1 : outcomes1.Valid graph) (hO2 : outcomes2.Valid graph)
    (hv : outcomes1.vertexPicker = outcomes2.vertexPicker)
    (ht : outcomes1.timingPicker = outcomes2.timingPicker)
    (hfuel : k < fuel) :
    (∀ st st1 : LocalSearchState,
      localSearchIteration graph numberOfPerturbations outcomes1 st = some st1 →
      st1.bestSolution
        = bestSolutionAfter graph numberOfPerturbations
            (outcomes1.vertexPicker st.metrics.numberOfIterations)
            (outcomes1.timingPicker st.metrics.numberOfIterations) st.bestSolution) ∧
    ∃ result,
      localSearchHeuristic graph initialSolution numberOfPerturbations
        (stop_criteria.numberOfIterations k) outcomes1 fuel = some result ∧
      localSearchHeuristic graph initialSolution numberOfPerturbations
        (stop_criteria.numberOfIterations k) outcomes2 fuel = some result := by
  refine ⟨fun st st1 h =>
    localSearchIteration_bestSolution graph numberOfPerturbations outcomes1 st st1 h, ?_⟩
  obtain ⟨a, ha, _⟩ := localSearchIterations_isSome graph numberOfPerturbations
    outcomes1 hP hO1 k (localSearchStart initialSolution)
  obtain ⟨b, hb, _⟩ := localSearchIterations_isSome graph numberOfPerturbations
    outcomes2 hP hO2 k (localSearchStart initialSolution)
  have hab := localSearchIterations_best_agree graph numberOfPerturbations outcomes1
    outcomes2 hv ht k (localSearchStart initialSolution) (localSearchStart initialSolution)
    a b rfl rfl ha hb
  refine ⟨a.bestSolution, ?_, ?_⟩
  · unfold localSearchHeuristic localSearchRun
    rw [localSearchLoop_eq_iterations graph numberOfPerturbations k outcomes1 k fuel
      (localSearchStart initialSolution) (by simp [localSearchStart]) hfuel, ha]
    rfl
  · unfold localSearchHeuristic localSearchRun
    rw [localSearchLoop_eq_iterations graph numberOfPerturbations k outcomes2 k fuel
      (localSearchStart initialSolution) (by simp [localSearchStart]) hfuel, hb, hab]
    rfl

/-- Witness of C18: on the 3-cycle from all-zero timings with `k = 100`, the
run whose roulette targets are all 0 and the run whose roulette targets are
all at the upper end of their range return the same solution. -/
theorem localSearchHeuristic_best_independent_of_roulette_witness :
    (cycle3Graph.NonnegPenalties ∧ cycle3Outcomes.Valid cycle3Graph ∧
      cycle3OutcomesHigh.Valid cycle3Graph ∧
      cycle3Outcomes.vertexPicker = cycle3OutcomesHigh.vertexPicker ∧
      cycle3Outcomes.timingPicker = cycle3OutcomesHigh.timingPicker ∧ 100 < 101) ∧
    ((∀ st st1 : LocalSearchState,
      localSearchIteration cycle3Graph 1 cycle3Outcomes st = some st1 →
      st1.bestSolution
        = bestSolutionAfter cycle3Graph 1
            (cycle3Outcomes.vertexPicker st.metrics.numberOfIterations)
            (cycle3Outcomes.timingPicker st.metrics.numberOfIterations) st.bestSolution) ∧
    ∃ result,
      localSearchHeuristic cycle3Graph (fun _ => 0) 1
        (stop_criteria.numberOfIterations 100) cycle3Outcomes 101 = some result ∧
      localSearchHeuristic cycle3Graph (fun _ => 0) 1
        (stop_criteria.numberOfIterations 100) cycle3OutcomesHigh 101 = some result) :=
  ⟨⟨cycle3Graph_nonneg, cycle3Outcomes_valid, cycle3OutcomesHigh_valid, rfl, rfl, by decide⟩,
   localSearchHeuristic_best_independent_of_roulette cycle3Graph (fun _ => 0) 1 100
     cycle3Outcomes cycle3OutcomesHigh 101 cycle3Graph_nonneg cycle3Outcomes_valid
     cycle3OutcomesHigh_valid rfl rfl (by decide)⟩

/-! ## Lemmas on an iteration of the heuristic constructor -/

/-- The body of the main loop is the lookup of the secondary vertex followed
by the rest of the body. -/
theorem heuristicIteration_eq_with (graph : Graph) (K : Nat) (maxPenaltyPossible : TimeUnit)
    (draws : HeuristicDraws) (vertex1 vertex2 : Vertex) (w : Weight) (st : HeuristicState)
    (h : pickedNeighbor graph draws st.iterations vertex1 = some (vertex2, w)) :
    heuristicIteration graph K maxPenaltyPossible draws vertex1 st
      = heuristicIterationWith graph K maxPenaltyPossible draws vertex1 vertex2 st := by
  unfold pickedNeighbor at h
  unfold heuristicIteration heuristicIterationWith
  simp only
  rw [h]

/-- Two tentative solutions agree when the solutions they are built on agree
away from the two vertices. -/
theorem tentative_eq (s s0 : Solution) (vertex1 vertex2 : Vertex) (x y : TimeUnit)
    (hfr : ∀ v, v ≠ vertex1 → v ≠ vertex2 → s v = s0 v) :
    setTiming (setTiming s vertex1 x) vertex2 y
      = setTiming (setTiming s0 vertex1 x) vertex2 y := by
  funext v
  simp only [setTiming]
  by_cases h2 : v = vertex2
  · rw [h2, Function.update_same, Function.update_same]
  · rw [Function.update_noteq h2, Function.update_noteq h2]
    by_cases h1 : v = vertex1
    · rw [h1, Function.update_same, Function.update_same]
    · rw [Function.update_noteq h1, Function.update_noteq h1]
      exact hfr v h1 h2

/-- The body of the loop over the candidate pairs, in terms of the penalty of
the pair on the solution of the start of the iteration. -/
theorem candidateStep_eq (graph : Graph) (vertex1 vertex2 : Vertex) (f : Nat → Int)
    (K : Nat) (s0 : Solution) (c : CandidateState) (k : Nat) (hk : k < K)
    (hfr : ∀ v, v ≠ vertex1 → v ≠ vertex2 → c.solution v = s0 v) :
    candidateStep graph vertex1 vertex2 ((List.range (2 * K)).map f) c k
      = if candidatePenalty graph vertex1 vertex2 s0 f k < c.bestPenalty then
          { solution := setTiming (setTiming s0 vertex1 (f (k * 2))) vertex2 (f (k * 2 + 1))
            bestPenalty := candidatePenalty graph vertex1 vertex2 s0 f k
            bestVertex1Timing := some (f (k * 2))
            bestVertex2Timing := some (f (k * 2 + 1)) }
        else
          { c with
            solution :=
              setTiming (setTiming s0 vertex1 (f (k * 2))) vertex2 (f (k * 2 + 1)) } := by
  have hj1 : k * 2 < 2 * K := by omega
  have hj2 : k * 2 + 1 < 2 * K := by omega
  unfold candidateStep candidatePenalty pairPenalty
  simp only
  rw [candidateTimings_getD f _ _ hj1, candidateTimings_getD f _ _ hj2,
    tentative_eq c.solution s0 vertex1 vertex2 _ _ hfr]

/-- After the first `k` candidate pairs, either no pair had a penalty below
the initial `bestPenalty` and the best timings are as before the loop, or the
best timings are those of the first pair of minimal penalty among the `k`. -/
theorem candidateLoop_argmin (graph : Graph) (vertex1 vertex2 : Vertex) (f : Nat → Int)
    (K : Nat) (c0 : CandidateState) (k : Nat) (hk : k ≤ K) :
    ((∀ j, j < k →
        ¬ candidatePenalty graph vertex1 vertex2 c0.solution f j < c0.bestPenalty) ∧
      ((List.range k).foldl
        (candidateStep graph vertex1 vertex2 ((List.range (2 * K)).map f)) c0).bestPenalty
        = c0.bestPenalty ∧
      ((List.range k).foldl
        (candidateStep graph vertex1 vertex2 ((List.range (2 * K)).map f))
        c0).bestVertex1Timing = c0.bestVertex1Timing ∧
      ((List.range k).foldl
        (candidateStep graph vertex1 vertex2 ((List.range (2 * K)).map f))
        c0).bestVertex2Timing = c0.bestVertex2Timing) ∨
    (∃ i, i < k ∧
      ((List.range k).foldl
        (candidateStep graph vertex1 vertex2 ((List.range (2 * K)).map f)) c0).bestPenalty
        = candidatePenalty graph vertex1 vertex2 c0.solution f i ∧
      ((List.range k).foldl
        (candidateStep graph vertex1 vertex2 ((List.range (2 * K)).map f))
        c0).bestVertex1Timing = some (f (i * 2)) ∧
      ((List.range k).foldl
        (candidateStep graph vertex1 vertex2 ((List.range (2 * K)).map f))
        c0).bestVertex2Timing = some (f (i * 2 + 1)) ∧
      candidatePenalty graph vertex1 vertex2 c0.solution f i < c0.bestPenalty ∧
      (∀ j, j < k →
        candidatePenalty graph vertex1 vertex2 c0.solution f i
          ≤ candidatePenalty graph vertex1 vertex2 c0.solution f j) ∧
      (∀ j, j < i →
        candidatePenalty graph vertex1 vertex2 c0.solution f i
          < candidatePenalty graph vertex1 vertex2 c0.solution f j)) := by
  induction k with
  | zero =>
    left
    exact ⟨fun j hj => absurd hj (Nat.not_lt_zero j), rfl, rfl, rfl⟩
  | succ n ih =>
    have hfr := fun v h1 h2 => candidateLoop_frame graph vertex1 vertex2
      ((List.range (2 * K)).map f) c0 n v h1 h2
    rw [List.range_succ, List.foldl_append]
    simp only [List.foldl_cons, List.foldl_nil]
    rw [candidateStep_eq graph vertex1 vertex2 f K c0.solution _ n (by omega) hfr]
    rcases ih (by omega) with ⟨hnone, hbp, hb1, hb2⟩ | ⟨i, hi, hbp, hb1, hb2, hlt, hmin, hfirst⟩
    · by_cases hnew : candidatePenalty graph vertex1 vertex2 c0.solution f n < c0.bestPenalty
      · right
        rw [hbp, if_pos hnew]
        refine ⟨n, Nat.lt_succ_self n, rfl, rfl, rfl, hnew, ?_, ?_⟩
        · intro j hj
          by_cases hjn : j = n
          · rw [hjn]
          · have := hnone j (by omega)
            exact le_trans (le_of_lt hnew) (not_lt.mp this)
        · intro j hj
          exact lt_of_lt_of_le hnew (not_lt.mp (hnone j hj))
      · left
        rw [hbp, if_neg hnew]
        refine ⟨?_, rfl, hb1, hb2⟩
        intro j hj
        by_cases hjn : j = n
        · rw [hjn]
          exact hnew
        · exact hnone j (by omega)
    · right
      rw [hbp]
      by_cases hnew : candidatePenalty graph vertex1 vertex2 c0.solution f n
          < candidatePenalty graph vertex1 vertex2 c0.solution f i
      · rw [if_pos hnew]
        refine ⟨n, Nat.lt_succ_self n, rfl, rfl, rfl, lt_trans hnew hlt, ?_, ?_⟩
        · intro j hj
          by_cases hjn : j = n
          · rw [hjn]
          · exact le_trans (le_of_lt hnew) (hmin j (by omega))
        · intro j hj
          exact lt_of_lt_of_le hnew (hmin j hj)
      · rw [if_neg hnew]
        refine ⟨i, Nat.lt_succ_of_lt hi, rfl, hb1, hb2, hlt, ?_, hfirst⟩
        intro j hj
        by_cases hjn : j = n
        · rw [hjn]
          exact not_lt.mp hnew
        · exact hmin j (by omega)

theorem staleGraph_validNeighborhoods : staleGraph.ValidNeighborhoods := by
  intro v hv
  have hv2 : v < 2 := hv
  interval_cases v <;> simp [staleGraph]

theorem staleGraph_nonneg : staleGraph.NonnegPenalties := by
  intro v s
  simp only [staleGraph]
  split_ifs <;> decide

theorem staleDraws_valid : staleDraws.Valid staleGraph := by
  refine ⟨fun l => List.Perm.refl l, fun n hi => Nat.zero_le hi, fun n i => ?_⟩
  show (0 : Int) ≤ (if n = 0 then 1 else (if i = 0 then 2 else 3)) ∧
    (if n = 0 then (1 : Int) else (if i = 0 then 2 else 3)) ≤ 4 - 1
  split_ifs <;> decide

/-! ## Theorems on an iteration of the heuristic constructor -/

/-- Away from the sentinel an iteration commits the first minimum: in an
iteration of `constructHeuristicSolution` on `vertex1 ≠ vertex2` in which
some candidate pair has a penalty, as line 76 computes it, below
`numeric_limits<TimeUnit>::max()`, the pair committed to the two vertices is
a candidate pair of minimal penalty, the penalty being taken on the solution
of the start of the iteration with the pair written to the two vertices, and
it is the first such pair: every earlier pair has a strictly greater
penalty. -/
theorem heuristicIterationWith_commits_first_minimum (graph : Graph)
    (numberOfTuplesToTestPerIteration : Nat) (maxPenaltyPossible : TimeUnit)
    (draws : HeuristicDraws) (vertex1 vertex2 : Vertex) (st : HeuristicState)
    (hne : vertex1 ≠ vertex2)
    (hbelow : ∃ j, j < numberOfTuplesToTestPerIteration ∧
      candidatePenalty graph vertex1 vertex2 st.solution
        (draws.timingPicker st.iterations) j < maxPenaltyPossible) :
    ∃ i st1,
      i < numberOfTuplesToTestPerIteration ∧
      heuristicIterationWith graph numberOfTuplesToTestPerIteration maxPenaltyPossible
        draws vertex1 vertex2 st = some st1 ∧
      st1.solution vertex1 = draws.timingPicker st.iterations (i * 2) ∧
      st1.solution vertex2 = draws.timingPicker st.iterations (i * 2 + 1) ∧
      (∀ v, v ≠ vertex1 → v ≠ vertex2 → st1.solution v = st.solution v) ∧
      (∀ j, j < numberOfTuplesToTestPerIteration →
        candidatePenalty graph vertex1 vertex2 st.solution
            (draws.timingPicker st.iterations) i
          ≤ candidatePenalty graph vertex1 vertex2 st.solution
              (draws.timingPicker st.iterations) j) ∧
      (∀ j, j < i →
        candidatePenalty graph vertex1 vertex2 st.solution
            (draws.timingPicker st.iterations) i
          < candidatePenalty graph vertex1 vertex2 st.solution
              (draws.timingPicker st.iterations) j) := by
  obtain ⟨j0, hj0, hlt0⟩ := hbelow
  rcases candidateLoop_argmin graph vertex1 vertex2 (draws.timingPicker st.iterations)
    numberOfTuplesToTestPerIteration
    { solution := st.solution
      bestPenalty := maxPenaltyPossible
      bestVertex1Timing := st.bestVertex1Timing
      bestVertex2Timing := st.bestVertex2Timing }
    numberOfTuplesToTestPerIteration (le_refl _) with
    ⟨hnone, _, _, _⟩ | ⟨i, hi, _, hb1, hb2, _, hmin, hfirst⟩
  · exact absurd hlt0 (hnone j0 hj0)
  · have hfr := fun v h1 h2 => candidateLoop_frame graph vertex1 vertex2
      ((List.range (2 * numberOfTuplesToTestPerIteration)).map
        (draws.timingPicker st.iterations))
      { solution := st.solution
        bestPenalty := maxPenaltyPossible
        bestVertex1Timing := st.bestVertex1Timing
        bestVertex2Timing := st.bestVertex2Timing }
      numberOfTuplesToTestPerIteration v h1 h2
    have hres : heuristicIterationWith graph numberOfTuplesToTestPerIteration
        maxPenaltyPossible draws vertex1 vertex2 st
        = some
            { solution :=
                setTiming
                  (setTiming
                    ((List.range numberOfTuplesToTestPerIteration).foldl
                      (candidateStep graph vertex1 vertex2
                        ((List.range (2 * numberOfTuplesToTestPerIteration)).map
                          (draws.timingPicker st.iterations)))
                      { solution := st.solution
                        bestPenalty := maxPenaltyPossible
                        bestVertex1Timing := st.bestVertex1Timing
                        bestVertex2Timing := st.bestVertex2Timing }).solution
                    vertex1 (draws.timingPicker st.iterations (i * 2)))
                  vertex2 (draws.timingPicker st.iterations (i * 2 + 1))
              bestVertex1Timing := some (draws.timingPicker st.iterations (i * 2))
              bestVertex2Timing := some (draws.timingPicker st.iterations (i * 2 + 1))
              iterations := st.iterations + 1
              visited := st.visited ++ [vertex1] } := by
      unfold heuristicIterationWith
      simp only
      rw [hb1, hb2]
    refine ⟨i, _, hi, hres, ?_, ?_, ?_, hmin, hfirst⟩
    · simp only [setTiming]
      rw [Function.update_noteq hne, Function.update_same]
    · simp only [setTiming]
      rw [Function.update_same]
    · intro v h1 h2
      simp only [setTiming]
      rw [Function.update_noteq h2, Function.update_noteq h1]
      exact hfr v h1 h2

/-- C14, evaluated on the code: on `staleGraph` (valid, non-negative
penalties) with `K = 1` and draws within their ranges, the main loop pops
the vertices 1, 0, 0, 0.  The second iteration is on `vertex1 = 0` and
`vertex2 = 1`; its only candidate pair is (2, 3), whose penalty is
`numeric_limits<TimeUnit>::max()`, so the test `penalty < bestPenalty` of
line 77 fails and lines 84-85 commit the pair (1, 1) recorded in the first
iteration, which is not a candidate pair of the second iteration. -/
theorem heuristicIteration_stale_pair_evaluation :
    staleGraph.ValidNeighborhoods ∧ staleGraph.NonnegPenalties ∧
    staleDraws.Valid staleGraph ∧
    (staleDraws.shuffle (unvisitedVerticesBuilt staleGraph)).reverse = [1, 0, 0, 0] ∧
    (heuristicMainLoop staleGraph 1 2147483647 staleDraws [1]
        (heuristicStart staleGraph (fun _ => 9))).map
      (fun st => (st.iterations, st.bestVertex1Timing, st.bestVertex2Timing))
      = some (1, some 1, some 1) ∧
    pickedNeighbor staleGraph staleDraws 1 0 = some (1, 1) ∧
    (staleDraws.timingPicker 1 0, staleDraws.timingPicker 1 1) = (2, 3) ∧
    ((heuristicMainLoop staleGraph 1 2147483647 staleDraws [1]
        (heuristicStart staleGraph (fun _ => 9))).bind
      (fun st => heuristicIterationWith staleGraph 1 2147483647 staleDraws 0 1 st)).map
      (fun st => (st.solution 0, st.solution 1))
      = some (1, 1) ∧
    (heuristicMainLoop staleGraph 1 2147483647 staleDraws [1, 0]
        (heuristicStart staleGraph (fun _ => 9))).map
      (fun st => (st.solution 0, st.solution 1))
      = some (1, 1) :=
  ⟨staleGraph_validNeighborhoods, staleGraph_nonneg, staleDraws_valid,
    by decide, by decide, by decide, by decide, by decide, by decide⟩

/-- C15: in an iteration of `constructHeuristicSolution` on a vertex whose
neighbourhood has `s ≥ 1` members, the declared range `[0, s - 1]` of the
edge picker is computed without wrap-around and is not empty, a draw within
it is an index inside the neighbourhood, the secondary vertex is the member
of the neighbourhood at that index, and the iteration goes on with it; when
`s = 1` the draw is 0 and the secondary vertex is the only neighbour. -/
theorem edgePicker_picks_neighbor (graph : Graph)
    (numberOfTuplesToTestPerIteration : Nat) (maxPenaltyPossible : TimeUnit)
    (draws : HeuristicDraws) (vertex1 : Vertex) (st : HeuristicState)
    (hne : graph.neighborsOf vertex1 ≠ [])
    (hdraw : draws.edgePicker st.iterations ((graph.neighborsOf vertex1).length - 1)
      ≤ (graph.neighborsOf vertex1).length - 1) :
    (graph.neighborsOf vertex1).length - 1 + 1 = (graph.neighborsOf vertex1).length ∧
    draws.edgePicker st.iterations ((graph.neighborsOf vertex1).length - 1)
      < (graph.neighborsOf vertex1).length ∧
    ∃ vertex2 w,
      pickedNeighbor graph draws st.iterations vertex1 = some (vertex2, w) ∧
      (vertex2, w) ∈ graph.neighborsOf vertex1 ∧
      heuristicIteration graph numberOfTuplesToTestPerIteration maxPenaltyPossible draws
          vertex1 st
        = heuristicIterationWith graph numberOfTuplesToTestPerIteration
            maxPenaltyPossible draws vertex1 vertex2 st ∧
      ((graph.neighborsOf vertex1).length = 1 →
        draws.edgePicker st.iterations ((graph.neighborsOf vertex1).length - 1) = 0 ∧
        graph.neighborsOf vertex1 = [(vertex2, w)]) := by
  have hlen : 0 < (graph.neighborsOf vertex1).length := List.length_pos.mpr hne
  have hlt : draws.edgePicker st.iterations ((graph.neighborsOf vertex1).length - 1)
      < (graph.neighborsOf vertex1).length := by omega
  refine ⟨by omega, hlt, ?_⟩
  have hget : pickedNeighbor graph draws st.iterations vertex1
      = some ((graph.neighborsOf vertex1).get ⟨_, hlt⟩) := by
    unfold pickedNeighbor
    exact List.get?_eq_get hlt
  rcases hp : (graph.neighborsOf vertex1).get ⟨_, hlt⟩ with ⟨vertex2, w⟩
  rw [hp] at hget
  have hmem : (vertex2, w) ∈ graph.neighborsOf vertex1 := by
    rw [← hp]
    exact List.get_mem _ _ _
  refine ⟨vertex2, w, hget, hmem,
    heuristicIteration_eq_with graph _ _ draws vertex1 vertex2 w st hget, ?_⟩
  intro h1
  have h0 : draws.edgePicker st.iterations ((graph.neighborsOf vertex1).length - 1) = 0 := by
    omega
  refine ⟨h0, ?_⟩
  obtain ⟨a, ha⟩ := List.length_eq_one.mp h1
  rw [ha] at hmem
  rw [ha, List.mem_singleton.mp hmem]

/-- Witness of C15: the first iteration on the graph of two joined
vertices, for the vertex 1, whose only neighbour is the vertex 0. -/
theorem edgePicker_picks_neighbor_witness :
    (pairGraph.neighborsOf 1 ≠ [] ∧
      plainDraws.edgePicker (heuristicStart pairGraph (fun _ => 9)).iterations
          ((pairGraph.neighborsOf 1).length - 1)
        ≤ (pairGraph.neighborsOf 1).length - 1) ∧
    ((pairGraph.neighborsOf 1).length - 1 + 1 = (pairGraph.neighborsOf 1).length ∧
    plainDraws.edgePicker (heuristicStart pairGraph (fun _ => 9)).iterations
        ((pairGraph.neighborsOf 1).length - 1)
      < (pairGraph.neighborsOf 1).length ∧
    ∃ vertex2 w,
      pickedNeighbor pairGraph plainDraws
        (heuristicStart pairGraph (fun _ => 9)).iterations 1 = some (vertex2, w) ∧
      (vertex2, w) ∈ pairGraph.neighborsOf 1 ∧
      heuristicIteration pairGraph 1 2147483647 plainDraws 1
          (heuristicStart pairGraph (fun _ => 9))
        = heuristicIterationWith pairGraph 1 2147483647 plainDraws 1 vertex2
            (heuristicStart pairGraph (fun _ => 9)) ∧
      ((pairGraph.neighborsOf 1).length = 1 →
        plainDraws.edgePicker (heuristicStart pairGraph (fun _ => 9)).iterations
            ((pairGraph.neighborsOf 1).length - 1) = 0 ∧
        pairGraph.neighborsOf 1 = [(vertex2, w)])) :=
  ⟨⟨by decide, by decide⟩,
   edgePicker_picks_neighbor pairGraph 1 2147483647 plainDraws 1
     (heuristicStart pairGraph (fun _ => 9)) (by decide) (by decide)⟩

end traffic
